import Mathlib

/-!
Verification development for the `bigdict` persistence layer
(`src/bigdict/_bigdict.py`): a sharded, LMDB-backed, dictionary-like
store.  The Python source is shallowly embedded below: pure helpers become
Lean functions, the stateful handle becomes explicit state passing over a
`DB` structure, and fallible operations return `Except`.
-/

namespace Bigdict

/-! ## Byte-level helpers -/

/-- `2 ^ 64`, the modulus for 64-bit word arithmetic. -/
def M64 : Nat := 18446744073709551616

/-- 64-bit wrapping addition. -/
def wadd (a b : Nat) : Nat := (a + b) % M64

/-- Right-rotation of a 64-bit word by `n` bits (`0 < n < 64`). -/
def rotr (n x : Nat) : Nat := (x >>> n) ||| ((x <<< (64 - n)) % M64)

/-- Little-endian reading of a byte list as an unsigned integer
(first byte is least significant). -/
def leNat (bs : List Nat) : Nat := bs.foldr (fun b acc => b + 256 * acc) 0

/-- The 8 little-endian bytes of a 64-bit word. -/
def le8 (w : Nat) : List Nat :=
  [w % 256, w / 256 % 256, w / 65536 % 256, w / 16777216 % 256,
   w / 4294967296 % 256, w / 1099511627776 % 256,
   w / 281474976710656 % 256, w / 72057594037927936 % 256]

/-! ## BLAKE2b

`Bigdict._shard` calls `hashlib.blake2b(key, digest_size=1)` (unkeyed, no
salt).  This is the standard BLAKE2b function of RFC 7693, embedded here
over `Nat` with explicit `% 2 ^ 64` wrapping. -/

/-- The BLAKE2b initialization vector (the SHA-512 IV). -/
def blakeIV : List Nat :=
  [0x6a09e667f3bcc908, 0xbb67ae8584caa73b, 0x3c6ef372fe94f82b,
   0xa54ff53a5f1d36f1, 0x510e527fade682d1, 0x9b05688c2b3e6c1f,
   0x1f83d9abfb41bd6b, 0x5be0cd19137e2179]

/-- The BLAKE2 message-schedule permutations (10 rows of 16 indices). -/
def blakeSigma : List (List Nat) :=
  [[0, 1, 2, 3, 4, 5, 6, 7, 8, 9, 10, 11, 12, 13, 14, 15],
   [14, 10, 4, 8, 9, 15, 13, 6, 1, 12, 0, 2, 11, 7, 5, 3],
   [11, 8, 12, 0, 5, 2, 15, 13, 10, 14, 3, 6, 7, 1, 9, 4],
   [7, 9, 3, 1, 13, 12, 11, 14, 2, 6, 5, 10, 4, 0, 15, 8],
   [9, 0, 5, 7, 2, 4, 10, 15, 14, 1, 11, 12, 6, 8, 3, 13],
   [2, 12, 6, 10, 0, 11, 8, 3, 4, 13, 7, 5, 15, 14, 1, 9],
   [12, 5, 1, 15, 14, 13, 4, 10, 0, 7, 6, 3, 9, 2, 8, 11],
   [13, 11, 7, 14, 12, 1, 3, 9, 5, 0, 15, 4, 8, 6, 2, 10],
   [6, 15, 14, 9, 11, 3, 0, 8, 12, 2, 13, 7, 1, 4, 10, 5],
   [10, 2, 8, 4, 7, 6, 1, 5, 15, 11, 9, 14, 3, 12, 13, 0]]

/-- The BLAKE2b mixing function `G` acting on work-vector positions
`a b c d` with message words `x y`. -/
def blakeG (v : List Nat) (a b c d x y : Nat) : List Nat :=
  let va := wadd (wadd (v.getD a 0) (v.getD b 0)) x
  let vd := rotr 32 ((v.getD d 0) ^^^ va)
  let vc := wadd (v.getD c 0) vd
  let vb := rotr 24 ((v.getD b 0) ^^^ vc)
  let va := wadd (wadd va vb) y
  let vd := rotr 16 (vd ^^^ va)
  let vc := wadd vc vd
  let vb := rotr 63 (vb ^^^ vc)
  ((((v.set a va).set b vb).set c vc).set d vd)

/-- One BLAKE2b round: the four column steps then the four diagonal steps,
with message words selected by row `r mod 10` of the sigma table. -/
def blakeRound (m : List Nat) (r : Nat) (v : List Nat) : List Nat :=
  let s := blakeSigma.getD (r % 10) []
  let mi := fun i => m.getD (s.getD i 0) 0
  let v := blakeG v 0 4 8 12 (mi 0) (mi 1)
  let v := blakeG v 1 5 9 13 (mi 2) (mi 3)
  let v := blakeG v 2 6 10 14 (mi 4) (mi 5)
  let v := blakeG v 3 7 11 15 (mi 6) (mi 7)
  let v := blakeG v 0 5 10 15 (mi 8) (mi 9)
  let v := blakeG v 1 6 11 12 (mi 10) (mi 11)
  let v := blakeG v 2 7 8 13 (mi 12) (mi 13)
  blakeG v 3 4 9 14 (mi 14) (mi 15)

/-- The BLAKE2b compression function: state `h` (8 words), message block
`m` (16 words), byte offset `t`, final-block flag `f`. -/
def blakeCompress (h : List Nat) (m : List Nat) (t : Nat) (f : Bool) : List Nat :=
  let v := h ++ blakeIV
  let v := v.set 12 ((v.getD 12 0) ^^^ (t % M64))
  let v := v.set 13 ((v.getD 13 0) ^^^ (t / M64 % M64))
  let v := if f then v.set 14 ((v.getD 14 0) ^^^ (M64 - 1)) else v
  let v := (List.range 12).foldl (fun v r => blakeRound m r v) v
  (List.range 8).map (fun i => (h.getD i 0) ^^^ (v.getD i 0) ^^^ (v.getD (i + 8) 0))

/-- Interpret a 128-byte block as 16 little-endian 64-bit words. -/
def blockWords (block : List Nat) : List Nat :=
  (List.range 16).map (fun i => leNat ((block.drop (8 * i)).take 8))

/-- Zero-pad a final block to 128 bytes. -/
def padBlock (bs : List Nat) : List Nat := bs ++ List.replicate (128 - bs.length) 0

/-- Split a message into 128-byte blocks, structurally on a fuel bound
(any fuel at least `length / 128` suffices; `splitBlocks` passes the
length).  An empty message yields one (empty, to be zero-padded) block,
as RFC 7693 prescribes. -/
def splitBlocksF : Nat → List Nat → List (List Nat)
  | 0, data => [data]
  | fuel + 1, data =>
      if data.length ≤ 128 then [data]
      else data.take 128 :: splitBlocksF fuel (data.drop 128)

/-- Split a message into 128-byte blocks. -/
def splitBlocks (data : List Nat) : List (List Nat) := splitBlocksF data.length data

/-- Sequentially compress all blocks; `t` counts bytes already consumed.
The last block is zero-padded and compressed with the final flag and the
total message length. -/
def blakeLoop (h : List Nat) (blocks : List (List Nat)) (t : Nat) : List Nat :=
  match blocks with
  | [] => h
  | [b] => blakeCompress h (blockWords (padBlock b)) (t + b.length) true
  | b :: rest => blakeLoop (blakeCompress h (blockWords b) (t + 128) false) rest (t + 128)

/-- Unkeyed BLAKE2b of `data` with digest size `nn` bytes (`1 ≤ nn ≤ 64`):
the first `nn` bytes of the little-endian serialization of the final state. -/
def blake2b (nn : Nat) (data : List Nat) : List Nat :=
  let h0 := blakeIV.set 0 ((blakeIV.getD 0 0) ^^^ (0x01010000 ^^^ nn))
  let h := blakeLoop h0 (splitBlocks data) 0
  (h.flatMap le8).take nn

/-- `hashlib.blake2b(key, digest_size=1).digest()[0]`: the single byte of
the one-byte BLAKE2b digest, as an integer. -/
def blake2b1 (data : List Nat) : Nat := (blake2b 1 data).getD 0 0

/-! ## The shard router (`Bigdict._shard`, lines 286-310)

Faithful embedding of

```python
def _shard(self, key: bytes) -> str:
    sv = self._storage_version
    sl = self._shard_level
    if sv < 1 or sl <= 1:
        return '0'
    if sv == 2:
        if len(key) == 0:
            return '0'
        base = blake2b(key, digest_size=1).digest()[0]
        if sl == 8: base &= 0b111
        elif sl == 16: base &= 0b1111
        elif sl == 32: base &= 0b11111
        elif sl == 64: base &= 0b111111
        elif sl == 128: base &= 0b1111111
        elif sl == 256: pass
        else: raise ValueError(...)
        return str(base)
    raise ValueError(...)
```

`raise` paths are embedded as `Except.error`. -/

def shard (storage_version shard_level : Nat) (key : List Nat) : Except String String :=
  let sv := storage_version
  let sl := shard_level
  if sv < 1 || sl ≤ 1 then .ok "0"
  else if sv = 2 then
    if key.length = 0 then .ok "0"
    else
      let base := blake2b1 key
      if sl = 8 then .ok (toString (base &&& 0b111))
      else if sl = 16 then .ok (toString (base &&& 0b1111))
      else if sl = 32 then .ok (toString (base &&& 0b11111))
      else if sl = 64 then .ok (toString (base &&& 0b111111))
      else if sl = 128 then .ok (toString (base &&& 0b1111111))
      else if sl = 256 then .ok (toString base)
      else .error ("shard-level " ++ toString sl)
  else .error ("storage-version " ++ toString sv)

/-- The claim's description of the router: shard counts `≤ 1` and the
empty key go to shard `"0"`; otherwise the first byte of the one-byte
BLAKE2b digest, masked with `shard_count - 1`, rendered in decimal. -/
def shardSpec (key : List Nat) (shard_count : Nat) : String :=
  if shard_count ≤ 1 then "0"
  else if key = [] then "0"
  else toString (blake2b1 key &&& (shard_count - 1))

/-! ## Key codec (`encode_key` / `decode_key`, lines 480-498)

`encode_key` is `k.encode('utf-8')` and `decode_key` is
`k.decode('utf-8')`.  Python strings are modelled as lists of Unicode
code points; a decode error (`UnicodeDecodeError`) is modelled as
`Option.none`. -/

/-- A code point a Python `str` can hold and `str.encode('utf-8')`
accepts: below the surrogate range or between it and `0x110000`. -/
def ValidCp (c : Nat) : Prop := c < 55296 ∨ (57344 ≤ c ∧ c < 1114112)

instance (c : Nat) : Decidable (ValidCp c) := by unfold ValidCp; infer_instance

/-- UTF-8 encoding of one code point. -/
def utf8Char (c : Nat) : List Nat :=
  if c < 128 then [c]
  else if c < 2048 then [192 + c / 64, 128 + c % 64]
  else if c < 65536 then [224 + c / 4096, 128 + c / 64 % 64, 128 + c % 64]
  else [240 + c / 262144, 128 + c / 4096 % 64, 128 + c / 64 % 64, 128 + c % 64]

/-- `str.encode('utf-8')`: the key's code points, UTF-8 encoded. -/
def encode_key (k : List Nat) : List Nat := k.flatMap utf8Char

/-! `bytes.decode('utf-8')` (strict): rejects truncated sequences, stray
or misplaced continuation bytes, overlong forms, surrogates and values
above `0x10FFFF`.  Split into one function per sequence length so that
each equation is a single-level pattern. -/

mutual

/-- `bytes.decode('utf-8')`, strict. -/
def utf8Decode : List Nat → Option (List Nat)
  | [] => some []
  | b0 :: rest =>
    if b0 < 128 then (utf8Decode rest).map (b0 :: ·)
    else if b0 < 194 then none
    else if b0 < 224 then utf8Cont1 b0 rest
    else if b0 < 240 then utf8Cont2 b0 rest
    else if b0 < 245 then utf8Cont3 b0 rest
    else none

/-- Continuation of a two-byte sequence headed by `b0`. -/
def utf8Cont1 (b0 : Nat) : List Nat → Option (List Nat)
  | b1 :: rest2 =>
      if 128 ≤ b1 ∧ b1 < 192 then
        (utf8Decode rest2).map (((b0 - 192) * 64 + (b1 - 128)) :: ·)
      else none
  | [] => none

/-- Continuation of a three-byte sequence headed by `b0`. -/
def utf8Cont2 (b0 : Nat) : List Nat → Option (List Nat)
  | b1 :: b2 :: rest2 =>
      if 128 ≤ b1 ∧ b1 < 192 ∧ 128 ≤ b2 ∧ b2 < 192 ∧
          2048 ≤ (b0 - 224) * 4096 + (b1 - 128) * 64 + (b2 - 128) ∧
          ¬(55296 ≤ (b0 - 224) * 4096 + (b1 - 128) * 64 + (b2 - 128) ∧
            (b0 - 224) * 4096 + (b1 - 128) * 64 + (b2 - 128) < 57344) then
        (utf8Decode rest2).map
          (((b0 - 224) * 4096 + (b1 - 128) * 64 + (b2 - 128)) :: ·)
      else none
  | _ => none

/-- Continuation of a four-byte sequence headed by `b0`. -/
def utf8Cont3 (b0 : Nat) : List Nat → Option (List Nat)
  | b1 :: b2 :: b3 :: rest2 =>
      if 128 ≤ b1 ∧ b1 < 192 ∧ 128 ≤ b2 ∧ b2 < 192 ∧ 128 ≤ b3 ∧ b3 < 192 ∧
          65536 ≤ (b0 - 240) * 262144 + (b1 - 128) * 4096 + (b2 - 128) * 64 + (b3 - 128) ∧
          (b0 - 240) * 262144 + (b1 - 128) * 4096 + (b2 - 128) * 64 + (b3 - 128) < 1114112 then
        (utf8Decode rest2).map
          (((b0 - 240) * 262144 + (b1 - 128) * 4096 + (b2 - 128) * 64 + (b3 - 128)) :: ·)
      else none
  | _ => none

end

/-- `decode_key` is UTF-8 decoding. -/
def decode_key (k : List Nat) : Option (List Nat) := utf8Decode k

/-! ## Value codec (`encode_value` / `decode_value`, lines 500-514)

`encode_value` is `pickle.dumps(v, protocol=pickle.HIGHEST_PROTOCOL)`
(protocol 5) and `decode_value` is `pickle.loads(v)`.  The codec is an
external collaborator (CPython's `pickle`); it is modelled here,
byte-faithfully to CPython for the natively picklable value universe
below: `None`, `bool`, `int`, `str` and (nested) `list`.  Three aspects
of CPython that cannot change the decoded value are simplified: frame
segmentation of outputs beyond 64 KiB (the unpickler skips `FRAME`
opcodes wherever they occur), pickler memo hits for objects repeated *by
identity* (e.g. interned strings, which re-serialize here instead of
emitting `BINGET`), and `APPENDS` batching for lists longer than 1000
elements (a single batch is emitted). -/

/-- The modelled universe of picklable values. -/
inductive PyVal where
  | none
  | bool (b : Bool)
  | int (i : Int)
  | str (s : List Nat)
  | list (xs : List PyVal)

/-- Two little-endian bytes. -/
def le2 (n : Nat) : List Nat := [n % 256, n / 256 % 256]

/-- Four little-endian bytes. -/
def le4 (n : Nat) : List Nat :=
  [n % 256, n / 256 % 256, n / 65536 % 256, n / 16777216 % 256]

/-- Minimal two's-complement little-endian encoding of an integer
(`pickle.encode_long`), structural on a fuel bound; `x.natAbs + 1` fuel
always suffices. -/
def encTwosF : Nat → Int → List Nat
  | 0, _ => []
  | fuel + 1, x =>
      let b := (x % 256).toNat
      let x2 := x / 256
      if x2 = 0 ∧ b < 128 then [b]
      else if x2 = -1 ∧ 128 ≤ b then [b]
      else b :: encTwosF fuel x2

/-- Minimal two's-complement little-endian encoding of an integer. -/
def encTwos (x : Int) : List Nat := encTwosF (x.natAbs + 1) x

/-- `pickle.decode_long`: little-endian two's-complement reading
(`int.from_bytes(data, 'little', signed=True)`). -/
def decTwos : List Nat → Int
  | [] => 0
  | [b] => if b < 128 then (b : Int) else (b : Int) - 256
  | b :: rest => (b : Int) + 256 * decTwos rest

/-- `save_long`: `BININT1`/`BININT2` for small non-negative integers,
`BININT` for other 32-bit signed values, else `LONG1`/`LONG4`. -/
def saveInt (i : Int) : List Nat :=
  if 0 ≤ i ∧ i < 256 then [75, i.toNat]
  else if 0 ≤ i ∧ i < 65536 then 77 :: le2 i.toNat
  else if -2147483648 ≤ i ∧ i < 2147483648 then 74 :: le4 ((i % 4294967296).toNat)
  else
    let bs := encTwos i
    if bs.length < 256 then 138 :: bs.length :: bs
    else 139 :: le4 bs.length ++ bs

/-- `save_str`: `SHORT_BINUNICODE` below 256 UTF-8 bytes, `BINUNICODE`
below `2^32`, else `BINUNICODE8`; always followed by `MEMOIZE`. -/
def saveStr (s : List Nat) : List Nat :=
  let bs := encode_key s
  if bs.length < 256 then 140 :: bs.length :: bs ++ [148]
  else if bs.length < 4294967296 then 88 :: le4 bs.length ++ bs ++ [148]
  else 141 :: le8 bs.length ++ bs ++ [148]

mutual

/-- The opcode body for one value (everything between the `PROTO`/`FRAME`
prefix and the final `STOP`). -/
def save : PyVal → List Nat
  | .none => [78]
  | .bool true => [136]
  | .bool false => [137]
  | .int i => saveInt i
  | .str s => saveStr s
  | .list xs => 93 :: 148 :: saveItems xs

/-- `batch_appends`: nothing for an empty list, `item APPEND` for a
single item, `MARK items APPENDS` otherwise. -/
def saveItems : List PyVal → List Nat
  | [] => []
  | [x] => save x ++ [97]
  | x :: y :: rest => 40 :: (save x ++ (save y ++ saveElems rest)) ++ [101]

/-- The concatenated bodies of a run of items. -/
def saveElems : List PyVal → List Nat
  | [] => []
  | x :: rest => save x ++ saveElems rest

end

/-- `pickle.dumps(v, protocol=5)`: `PROTO 5`, a `FRAME` header once the
remaining payload reaches 4 bytes, the value's body, `STOP`. -/
def dumps (v : PyVal) : List Nat :=
  let body := save v ++ [46]
  128 :: 5 :: (if 4 ≤ body.length then 149 :: le8 body.length ++ body else body)

/-- `encode_value` is `pickle.dumps(v, protocol=pickle.HIGHEST_PROTOCOL)`. -/
def encode_value (v : PyVal) : List Nat := dumps v

/-- Unpickler stack slots: objects and the `MARK` sentinel. -/
inductive SVal where
  | obj (v : PyVal)
  | mark

/-- Multi-byte reads in flight: which opcode argument is being read. -/
inductive PKind where
  | proto | frame | binint1 | binint2 | binint
  | long1len | long4len | longpay
  | shortunilen | unilen | uni8len | unipay
deriving DecidableEq

/-- Unpickler machine mode: at an opcode boundary, or reading `need + 1`
more argument bytes for `k` with accumulator `acc`. -/
inductive Mode where
  | op
  | read (k : PKind) (need : Nat) (acc : List Nat)
deriving DecidableEq

/-- One transition outcome: halt (`STOP` or error) or continue in mode
`m` with stack `stk`, optionally appending one value to the memo. -/
inductive Step where
  | halt (r : Option PyVal)
  | next (m : Mode) (stk : List SVal) (mp : Option PyVal)

/-- Pop values down to the topmost `MARK`; returns them in push order
together with the stack below the mark. -/
def popMark : List SVal → Option (List PyVal × List SVal)
  | [] => Option.none
  | .mark :: rest => some ([], rest)
  | .obj v :: rest => (popMark rest).map (fun p => (p.1 ++ [v], p.2))

/-- Dispatch a fully read opcode argument `acc`. -/
def readStep (k : PKind) (acc : List Nat) (stk : List SVal) : Step :=
  match k with
  | .proto =>
      match acc with
      | [p] => if p ≤ 5 then .next .op stk Option.none else .halt Option.none
      | _ => .halt Option.none
  | .frame => .next .op stk Option.none
  | .binint1 =>
      match acc with
      | [b] => .next .op (.obj (.int b) :: stk) Option.none
      | _ => .halt Option.none
  | .binint2 => .next .op (.obj (.int (leNat acc)) :: stk) Option.none
  | .binint =>
      let u := leNat acc
      .next .op
        (.obj (.int (if u < 2147483648 then (u : Int) else (u : Int) - 4294967296)) :: stk)
        Option.none
  | .long1len =>
      match acc with
      | [n] =>
          if n = 0 then .next .op (.obj (.int 0) :: stk) Option.none
          else .next (.read .longpay (n - 1) []) stk Option.none
      | _ => .halt Option.none
  | .long4len =>
      let n := leNat acc
      if n = 0 then .next .op (.obj (.int 0) :: stk) Option.none
      else .next (.read .longpay (n - 1) []) stk Option.none
  | .longpay => .next .op (.obj (.int (decTwos acc)) :: stk) Option.none
  | .shortunilen =>
      match acc with
      | [n] =>
          if n = 0 then .next .op (.obj (.str []) :: stk) Option.none
          else .next (.read .unipay (n - 1) []) stk Option.none
      | _ => .halt Option.none
  | .unilen =>
      let n := leNat acc
      if n = 0 then .next .op (.obj (.str []) :: stk) Option.none
      else .next (.read .unipay (n - 1) []) stk Option.none
  | .uni8len =>
      let n := leNat acc
      if n = 0 then .next .op (.obj (.str []) :: stk) Option.none
      else .next (.read .unipay (n - 1) []) stk Option.none
  | .unipay =>
      match utf8Decode acc with
      | some s => .next .op (.obj (.str s) :: stk) Option.none
      | Option.none => .halt Option.none

/-- Dispatch one opcode byte at an opcode boundary. -/
def opStep (b : Nat) (stk : List SVal) : Step :=
  if b = 46 then
    match stk with
    | .obj v :: _ => .halt (some v)
    | _ => .halt Option.none
  else if b = 128 then .next (.read .proto 0 []) stk Option.none
  else if b = 149 then .next (.read .frame 7 []) stk Option.none
  else if b = 78 then .next .op (.obj .none :: stk) Option.none
  else if b = 136 then .next .op (.obj (.bool true) :: stk) Option.none
  else if b = 137 then .next .op (.obj (.bool false) :: stk) Option.none
  else if b = 75 then .next (.read .binint1 0 []) stk Option.none
  else if b = 77 then .next (.read .binint2 1 []) stk Option.none
  else if b = 74 then .next (.read .binint 3 []) stk Option.none
  else if b = 138 then .next (.read .long1len 0 []) stk Option.none
  else if b = 139 then .next (.read .long4len 3 []) stk Option.none
  else if b = 140 then .next (.read .shortunilen 0 []) stk Option.none
  else if b = 88 then .next (.read .unilen 3 []) stk Option.none
  else if b = 141 then .next (.read .uni8len 7 []) stk Option.none
  else if b = 93 then .next .op (.obj (.list []) :: stk) Option.none
  else if b = 40 then .next .op (.mark :: stk) Option.none
  else if b = 148 then
    match stk with
    | .obj v :: _ => .next .op stk (some v)
    | _ => .halt Option.none
  else if b = 97 then
    match stk with
    | .obj v :: .obj (.list l) :: s2 => .next .op (.obj (.list (l ++ [v])) :: s2) Option.none
    | _ => .halt Option.none
  else if b = 101 then
    match popMark stk with
    | some (items, .obj (.list l) :: s2) =>
        .next .op (.obj (.list (l ++ items)) :: s2) Option.none
    | _ => .halt Option.none
  else .halt Option.none

/-- The unpickler: a byte-at-a-time machine over the input. -/
def runB : List Nat → Mode → List SVal → List PyVal → Option PyVal
  | [], _, _, _ => Option.none
  | b :: rest, .op, stk, memo =>
      match opStep b stk with
      | .halt r => r
      | .next m stk2 mp => runB rest m stk2 (memo ++ mp.toList)
  | b :: rest, .read k 0 acc, stk, memo =>
      match readStep k (acc ++ [b]) stk with
      | .halt r => r
      | .next m stk2 mp => runB rest m stk2 (memo ++ mp.toList)
  | b :: rest, .read k (n + 1) acc, stk, memo =>
      runB rest (.read k n (acc ++ [b])) stk memo

/-- `pickle.loads`. -/
def loads (data : List Nat) : Option PyVal := runB data .op [] []

/-- `decode_value` is `pickle.loads`. -/
def decode_value (data : List Nat) : Option PyVal := loads data

mutual

/-- Values whose pickling round-trips: every contained string has valid
code points (so `str.encode('utf-8')` succeeds) and no contained string
or integer overflows the 8- resp. 4-byte length fields (both bounds are
astronomically generous). -/
def ValidVal : PyVal → Prop
  | .str s => (∀ c ∈ s, ValidCp c) ∧ (encode_key s).length < 18446744073709551616
  | .int i => (encTwos i).length < 4294967296
  | .list xs => ValidElems xs
  | _ => True

/-- `ValidVal` for every element. -/
def ValidElems : List PyVal → Prop
  | [] => True
  | x :: xs => ValidVal x ∧ ValidElems xs

end


/-! ## The dataset handle (`Bigdict`, lines 32-812)

The stateful handle is embedded as explicit state passing over `DB`.
`self._transactions` is `txns` (shard id, staged operations of the open
LMDB write transaction, in call order); committed on-disk contents are
`disk` (`none` after `shutil.rmtree` in `destroy`), shard id mapped to
an association list of encoded key-value pairs; `hasInfo` tracks
`self.info` / `info.json` (deleted by `destroy`); `pending` is
`self._num_pending_writes` and `interval` is
`self._write_commit_interval`.  Python exceptions are the `PyErr` sum;
each operation returns the post-state together with `Except PyErr α`
(state mutations made before a raise are kept, as in Python). -/

/-- Association-list lookup. -/
def alookup {α β : Type} [DecidableEq α] (k : α) : List (α × β) → Option β
  | [] => Option.none
  | (k2, v2) :: rest => if k2 = k then some v2 else alookup k rest

/-- Association-list insert-or-replace (in place; appends new keys). -/
def aset {α β : Type} [DecidableEq α] (k : α) (v : β) : List (α × β) → List (α × β)
  | [] => [(k, v)]
  | (k2, v2) :: rest => if k2 = k then (k, v) :: rest else (k2, v2) :: aset k v rest

/-- Association-list removal of a key. -/
def aerase {α β : Type} [DecidableEq α] (k : α) : List (α × β) → List (α × β)
  | [] => []
  | (k2, v2) :: rest => if k2 = k then rest else (k2, v2) :: aerase k rest

/-- Exceptions the handle's operations can raise. -/
inductive PyErr where
  | readonly (msg : String)        -- `lmdb.ReadonlyError`
  | keyError (key : List Nat)      -- `KeyError(key)`
  | valueError (msg : String)      -- `ValueError` from `_shard`
  | notImplementedError            -- `clear`
  | attributeError (msg : String)  -- `self.info` access after `destroy`
  | unpicklingError                -- `pickle.loads` failure
deriving DecidableEq

/-- A staged write inside an open LMDB write transaction. -/
inductive TxnOp where
  | put (k v : List Nat)
  | del (k : List Nat)
deriving DecidableEq

/-- One shard's committed contents: encoded keys to encoded values. -/
abbrev ShardData := List (List Nat × List Nat)

/-- The handle state. -/
structure DB where
  readonly : Bool
  storage_version : Nat
  shard_level : Nat
  disk : Option (List (String × ShardData))
  hasInfo : Bool
  txns : List (String × List TxnOp)
  pending : Nat
  interval : Nat
deriving DecidableEq

/-- Effect of a staged operation on a shard's contents (`txn.put` /
`txn.delete` at commit). -/
def applyTxnOp (m : ShardData) : TxnOp → ShardData
  | .put k v => aset k v m
  | .del k => aerase k m

/-- A transaction's staged operations applied in call order. -/
def applyOps (m : ShardData) (ops : List TxnOp) : ShardData :=
  ops.foldl applyTxnOp m

/-- One shard's committed contents (empty when absent or removed). -/
def diskShard (d : Option (List (String × ShardData))) (sh : String) : ShardData :=
  match d with
  | some m => (alookup sh m).getD []
  | Option.none => []

/-- Overwrite one shard's committed contents. -/
def diskSetShard (d : Option (List (String × ShardData))) (sh : String)
    (content : ShardData) : Option (List (String × ShardData)) :=
  match d with
  | some m => some (aset sh content m)
  | Option.none => Option.none

/-- `self._env(shard)`: `os.makedirs(path/db/shard, exist_ok=True)` plus
`lmdb.Environment(...)`.  Creates the shard directory if missing — even
when the whole dataset directory was removed by `destroy`. -/
def envEnsure (d : Option (List (String × ShardData))) (sh : String) :
    Option (List (String × ShardData)) :=
  match d with
  | some m => some (if (alookup sh m).isSome then m else m ++ [(sh, [])])
  | Option.none => some [(sh, [])]

/-- The staged operations of a shard's open transaction (none staged when
no transaction is open). -/
def txnOps (txns : List (String × List TxnOp)) (sh : String) : List TxnOp :=
  (alookup sh txns).getD []

/-- `self._transaction(shard)`: opens (and registers) the shard's
environment and transaction if not already open. -/
def getTxn (db : DB) (sh : String) : DB :=
  { db with
    disk := envEnsure db.disk sh,
    txns := if (alookup sh db.txns).isSome then db.txns else db.txns ++ [(sh, [])] }

/-- Stage one more operation on a shard's open transaction. -/
def txnAppend (txns : List (String × List TxnOp)) (sh : String) (op : TxnOp) :
    List (String × List TxnOp) :=
  aset sh ((alookup sh txns).getD [] ++ [op]) txns

/-- Commit every open transaction against the disk, in insertion order
(`for x in self._transactions.values(): x.commit()`). -/
def commitTxns (d : Option (List (String × ShardData)))
    (txns : List (String × List TxnOp)) : Option (List (String × ShardData)) :=
  txns.foldl (fun d p => diskSetShard d p.1 (applyOps (diskShard d p.1) p.2)) d

/-- `Bigdict.commit` (lines 384-462): raises `ReadonlyError` on read-only
handles; otherwise commits every open transaction, resets the pending
counter and clears the transaction map. -/
def commit (db : DB) : DB × Except PyErr Unit :=
  if db.readonly then (db, .error (.readonly "commit: Permission denied"))
  else
    ({ db with disk := commitTxns db.disk db.txns, pending := 0, txns := [] }, .ok ())

/-- `Bigdict._track_write` (lines 377-382). -/
def track_write (n : Nat) (db : DB) : DB × Except PyErr Unit :=
  if n < 1 then (db, .ok ())
  else
    let db2 := { db with pending := db.pending + n }
    if db2.interval ≤ db2.pending then commit db2 else (db2, .ok ())

/-- `Bigdict.flush` (lines 468-478): `commit`, then rewrite `info.json`
(an `AttributeError` surfaces if `self.info` was removed by `destroy`). -/
def flush (db : DB) : DB × Except PyErr Unit :=
  match commit db with
  | (db2, .error e) => (db2, .error e)
  | (db2, .ok _) =>
      if db2.hasInfo then (db2, .ok ()) else (db2, .error (.attributeError "info"))

/-- `Bigdict.__setitem__` (lines 516-522). -/
def setitem (k : List Nat) (v : PyVal) (db : DB) : DB × Except PyErr Unit :=
  let kk := encode_key k
  match shard db.storage_version db.shard_level kk with
  | .error e => (db, .error (.valueError e))
  | .ok sh =>
      let vv := encode_value v
      let db2 := getTxn db sh
      if db2.readonly then (db2, .error (.readonly "put"))
      else track_write 1 { db2 with txns := txnAppend db2.txns sh (.put kk vv) }

/-- `Bigdict.__getitem__` (lines 524-549): on a read-write handle the
lookup goes through the long-lived write transaction (staged writes visible);
on a read-only handle a fresh short-lived transaction sees committed
state only. -/
def getitem (k : List Nat) (db : DB) : DB × Except PyErr PyVal :=
  let kk := encode_key k
  match shard db.storage_version db.shard_level kk with
  | .error e => (db, .error (.valueError e))
  | .ok sh =>
      if db.readonly then
        let db2 := { db with disk := envEnsure db.disk sh }
        match alookup kk (diskShard db2.disk sh) with
        | some vv =>
            match decode_value vv with
            | some v => (db2, .ok v)
            | Option.none => (db2, .error .unpicklingError)
        | Option.none => (db2, .error (.keyError k))
      else
        let db2 := getTxn db sh
        match alookup kk (applyOps (diskShard db2.disk sh) (txnOps db2.txns sh)) with
        | some vv =>
            match decode_value vv with
            | some v => (db2, .ok v)
            | Option.none => (db2, .error .unpicklingError)
        | Option.none => (db2, .error (.keyError k))

/-- `Bigdict.get` (lines 560-564). -/
def get (k : List Nat) (default : PyVal) (db : DB) : DB × Except PyErr PyVal :=
  match getitem k db with
  | (db2, .error (.keyError _)) => (db2, .ok default)
  | r => r

/-- `Bigdict.__delitem__` (lines 551-558): `txn.delete` returns whether
the key was present; an absent key raises `KeyError`. -/
def delitem (k : List Nat) (db : DB) : DB × Except PyErr Unit :=
  let kk := encode_key k
  match shard db.storage_version db.shard_level kk with
  | .error e => (db, .error (.valueError e))
  | .ok sh =>
      let db2 := getTxn db sh
      if db2.readonly then (db2, .error (.readonly "delete"))
      else
        let z := (alookup kk (applyOps (diskShard db2.disk sh) (txnOps db2.txns sh))).isSome
        let db3 := { db2 with txns := txnAppend db2.txns sh (.del kk) }
        if z then track_write 1 db3 else (db3, .error (.keyError k))

/-- `Bigdict.pop` (lines 619-631). -/
def pop (k : List Nat) (default : Option PyVal) (db : DB) : DB × Except PyErr PyVal :=
  if db.readonly then (db, .error (.readonly "pop: Permission denied"))
  else
    let kk := encode_key k
    match shard db.storage_version db.shard_level kk with
    | .error e => (db, .error (.valueError e))
    | .ok sh =>
        let db2 := getTxn db sh
        match alookup kk (applyOps (diskShard db2.disk sh) (txnOps db2.txns sh)) with
        | some vv =>
            let db3 := { db2 with txns := txnAppend db2.txns sh (.del kk) }
            match track_write 1 db3 with
            | (db4, .error e) => (db4, .error e)
            | (db4, .ok _) =>
                match decode_value vv with
                | some v => (db4, .ok v)
                | Option.none => (db4, .error .unpicklingError)
        | Option.none =>
            match default with
            | some d => (db2, .ok d)
            | Option.none => (db2, .error (.keyError k))

/-- `Bigdict.setdefault` (lines 633-641). -/
def setdefault (k : List Nat) (v : PyVal) (db : DB) : DB × Except PyErr PyVal :=
  if db.readonly then (db, .error (.readonly "setdefault: Permission denied"))
  else
    match getitem k db with
    | (db2, .ok val) => (db2, .ok val)
    | (db2, .error (.keyError _)) =>
        match setitem k v db2 with
        | (db3, .ok _) => (db3, .ok v)
        | (db3, .error e) => (db3, .error e)
    | (db2, .error e) => (db2, .error e)

/-- One step of grouping update pairs by target shard. -/
def sharddataStep (sv sl : Nat)
    (acc : Except PyErr (List (String × List (List Nat × List Nat))))
    (p : List Nat × PyVal) :
    Except PyErr (List (String × List (List Nat × List Nat))) :=
  match acc with
  | .error e => .error e
  | .ok d =>
      match shard sv sl (encode_key p.1) with
      | .error e => .error (.valueError e)
      | .ok sh =>
          .ok (aset sh ((alookup sh d).getD [] ++ [(encode_key p.1, encode_value p.2)]) d)

/-- Group update pairs by target shard (`defaultdict(list)`, insertion
order), with keys and values encoded. -/
def sharddataOf (sv sl : Nat) (pairs : List (List Nat × PyVal)) :
    Except PyErr (List (String × List (List Nat × List Nat))) :=
  pairs.foldl (sharddataStep sv sl) (.ok [])

/-- Stage one shard's grouped update batch (`putmulti` through the
shard's transaction). -/
def stageShard (db : DB) (p : String × List (List Nat × List Nat)) : DB :=
  let db2 := getTxn db p.1
  { db2 with
    txns := aset p.1 (txnOps db2.txns p.1 ++ p.2.map (fun q => TxnOp.put q.1 q.2)) db2.txns }

/-- `Bigdict.update` (lines 643-676): group by shard, then one bulk
`putmulti` per shard, then one `_track_write` with the total count. -/
def update (pairs : List (List Nat × PyVal)) (db : DB) : DB × Except PyErr Unit :=
  if db.readonly then (db, .error (.readonly "update: Permission denied"))
  else
    match sharddataOf db.storage_version db.shard_level pairs with
    | .error e => (db, .error e)
    | .ok sd =>
        track_write (sd.foldl (fun n p => n + p.2.length) 0) (sd.foldl stageShard db)

/-- `Bigdict.get_buffer` (lines 566-591): commit when writes are pending
(so the fresh read transaction sees them), then a fresh lookup. -/
def get_buffer (k : List Nat) (default : Option (List Nat)) (db : DB) :
    DB × Except PyErr (List Nat) :=
  match (if 0 < db.pending then commit db else (db, .ok ())) with
  | (db2, .error e) => (db2, .error e)
  | (db2, .ok _) =>
      let kk := encode_key k
      match shard db2.storage_version db2.shard_level kk with
      | .error e => (db2, .error (.valueError e))
      | .ok sh =>
          let db3 := { db2 with disk := envEnsure db2.disk sh }
          match alookup kk (diskShard db3.disk sh) with
          | some vv => (db3, .ok vv)
          | Option.none =>
              match default with
              | some d => (db3, .ok d)
              | Option.none => (db3, .error (.keyError k))

/-- `Bigdict.__contains__` (lines 739-752). -/
def contains (k : List Nat) (db : DB) : DB × Except PyErr Bool :=
  let kk := encode_key k
  match shard db.storage_version db.shard_level kk with
  | .error e => (db, .error (.valueError e))
  | .ok sh =>
      if db.readonly then
        let db2 := { db with disk := envEnsure db.disk sh }
        (db2, .ok (alookup kk (diskShard db2.disk sh)).isSome)
      else
        let db2 := getTxn db sh
        (db2, .ok (alookup kk (applyOps (diskShard db2.disk sh) (txnOps db2.txns sh))).isSome)

/-- `Bigdict._shards` (lines 265-284): `["0"]` for the unsharded layout;
otherwise the numeric subdirectories of `db/`, numerically sorted
(missing directory: empty). -/
def shardsList (db : DB) : List String :=
  if db.shard_level ≤ 1 then ["0"]
  else
    match db.disk with
    | some m =>
        ((m.map Prod.fst).map (fun s => s.toNat?)).reduceOption.mergeSort (· ≤ ·)
          |>.map (fun n => toString n)
    | Option.none => []

/-- `Bigdict.__len__` (lines 754-764): per existing shard, a fresh read
transaction (read-only handle) or the registered write transaction
(read-write handle, staged writes counted). -/
def lengthOp (db : DB) : DB × Except PyErr Nat :=
  (shardsList db).foldl
    (fun r sh =>
      match r with
      | (db, .error e) => (db, .error e)
      | (db, .ok n) =>
          if db.readonly then
            let db2 := { db with disk := envEnsure db.disk sh }
            (db2, .ok (n + (diskShard db2.disk sh).length))
          else
            let db2 := getTxn db sh
            (db2, .ok (n + (applyOps (diskShard db2.disk sh) (txnOps db2.txns sh)).length)))
    (db, .ok 0)

/-- `Bigdict.__bool__` (lines 766-776): like `__len__` with early exit. -/
def boolOp (db : DB) : DB × Except PyErr Bool :=
  let rec go : List String → DB → DB × Except PyErr Bool
    | [], db => (db, .ok false)
    | sh :: rest, db =>
        if db.readonly then
          let db2 := { db with disk := envEnsure db.disk sh }
          if (diskShard db2.disk sh).length ≠ 0 then (db2, .ok true) else go rest db2
        else
          let db2 := getTxn db sh
          if (applyOps (diskShard db2.disk sh) (txnOps db2.txns sh)).length ≠ 0 then
            (db2, .ok true)
          else go rest db2
  go (shardsList db) db

/-- Starting iteration of `Bigdict.keys` / `__iter__` (lines 678-685):
a read-write handle commits unconditionally first. -/
def keysBegin (db : DB) : DB × Except PyErr Unit :=
  if ¬db.readonly then commit db else (db, .ok ())

/-- Starting iteration of `Bigdict.values` (lines 687-710): commit only
when writes are pending. -/
def valuesBegin (db : DB) : DB × Except PyErr Unit :=
  if 0 < db.pending then commit db else (db, .ok ())

/-- Starting iteration of `Bigdict.items` (lines 712-734): like
`values`. -/
def itemsBegin (db : DB) : DB × Except PyErr Unit :=
  if 0 < db.pending then commit db else (db, .ok ())

/-- `Bigdict.destroy` (lines 794-812): abort all transactions, close all
environments, `shutil.rmtree(self.path)`, `delattr(self, 'info')`. -/
def destroy (db : DB) : DB × Except PyErr Unit :=
  if db.readonly then (db, .error (.readonly "destroy: Permission denied"))
  else
    ({ db with txns := [], pending := 0, disk := Option.none, hasInfo := false }, .ok ())

/-- `Bigdict.clear` (lines 778-792). -/
def clearOp (db : DB) : DB × Except PyErr Unit :=
  (db, .error .notImplementedError)

/-- `Bigdict.compact`, handle-level effect (lines 814-839): flush first;
the per-shard engine-level copy/verify/swap is modelled separately by
`compactRun` and preserves logical shard contents on success. -/
def compactL (db : DB) : DB × Except PyErr Unit :=
  match flush db with
  | (db2, .error e) => (db2, .error e)
  | (db2, .ok _) => (db2, .ok ())

/-- `Bigdict._close` (lines 229-263), the `Finalize` teardown for this
handle: read transactions abort, write transactions commit; a missing
`info.json` after a concurrent `destroy` is tolerated. -/
def closeOp (db : DB) : DB × Except PyErr Unit :=
  if db.readonly then ({ db with txns := [] }, .ok ())
  else ({ db with disk := commitTxns db.disk db.txns, txns := [] }, .ok ())

/-- `Bigdict.as_readonly` (lines 174-203): derives a read-only view; the
original handle's own state is unchanged (shared environments aside). -/
def asReadonly (db : DB) : DB × Except PyErr Unit :=
  (db, .ok ())

/-- The public operations of the handle, with their arguments. -/
inductive Op where
  | setitem (k : List Nat) (v : PyVal)
  | delitem (k : List Nat)
  | pop (k : List Nat) (default : Option PyVal)
  | setdefault (k : List Nat) (v : PyVal)
  | update (pairs : List (List Nat × PyVal))
  | getitem (k : List Nat)
  | get (k : List Nat) (default : PyVal)
  | getBuffer (k : List Nat) (default : Option (List Nat))
  | contains (k : List Nat)
  | length
  | boolOp
  | keysBegin
  | valuesBegin
  | itemsBegin
  | commit
  | flush
  | destroy
  | clear
  | compact
  | close
  | asReadonly

/-- Run one public operation, discarding its return value. -/
def runOp : Op → DB → DB × Except PyErr Unit
  | .setitem k v, db => setitem k v db
  | .delitem k, db => delitem k db
  | .pop k d, db => (fun r => (r.1, r.2.map (fun _ => ()))) (pop k d db)
  | .setdefault k v, db => (fun r => (r.1, r.2.map (fun _ => ()))) (setdefault k v db)
  | .update pairs, db => update pairs db
  | .getitem k, db => (fun r => (r.1, r.2.map (fun _ => ()))) (getitem k db)
  | .get k d, db => (fun r => (r.1, r.2.map (fun _ => ()))) (get k d db)
  | .getBuffer k d, db => (fun r => (r.1, r.2.map (fun _ => ()))) (get_buffer k d db)
  | .contains k, db => (fun r => (r.1, r.2.map (fun _ => ()))) (contains k db)
  | .length, db => (fun r => (r.1, r.2.map (fun _ => ()))) (lengthOp db)
  | .boolOp, db => (fun r => (r.1, r.2.map (fun _ => ()))) (boolOp db)
  | .keysBegin, db => keysBegin db
  | .valuesBegin, db => valuesBegin db
  | .itemsBegin, db => itemsBegin db
  | .commit, db => commit db
  | .flush, db => flush db
  | .destroy, db => destroy db
  | .clear, db => clearOp db
  | .compact, db => compactL db
  | .close, db => closeOp db
  | .asReadonly, db => asReadonly db

/-- Apply a sequence of writes (`__setitem__` calls) in order, stopping
at the first error. -/
def applyWrites (db : DB) (writes : List (List Nat × PyVal)) : DB × Except PyErr Unit :=
  writes.foldl
    (fun r p =>
      match r with
      | (db, .ok _) => setitem p.1 p.2 db
      | e => e)
    (db, .ok ())

/-- The claim's rollback contract for a candidate operation: after any
successful write sequence on a read-write handle, the operation
succeeds, clears the transaction map (aborting every open write
transaction and discarding the uncommitted mutations), and leaves the
persisted dataset exactly as before the sequence began. -/
def IsRollback (o : Op) : Prop :=
  ∀ db writes db1,
    db.readonly = false → db.disk ≠ Option.none → db.hasInfo = true →
    applyWrites db writes = (db1, .ok ()) →
    ∃ db2, runOp o db1 = (db2, .ok ()) ∧ db2.txns = [] ∧ db2.disk = db.disk

/-- The last value written for a key in a write sequence
(last-write-wins at encoded-key granularity). -/
def lastWrite (writes : List (List Nat × PyVal)) (k : List Nat) : Option PyVal :=
  writes.foldl
    (fun acc p => if encode_key p.1 = encode_key k then some p.2 else acc)
    Option.none

/-- Where a key routes on this handle (total: defaults to shard `"0"` on
the configurations rejected at open). -/
def routeOf (db : DB) (k : List Nat) : String :=
  ((shard db.storage_version db.shard_level (encode_key k)).toOption).getD "0"

/-- The persisted (committed, on-disk) value stored for a key. -/
def dbGet (db : DB) (k : List Nat) : Option (List Nat) :=
  alookup (encode_key k) (diskShard db.disk (routeOf db k))

/-- A supported shard level (`Bigdict.new` asserts this set). -/
def SupportedSl (sl : Nat) : Prop :=
  sl = 0 ∨ sl = 1 ∨ sl = 8 ∨ sl = 16 ∨ sl = 32 ∨ sl = 64 ∨ sl = 128 ∨ sl = 256

/-- A read-write handle in a state reachable from `open`: current
storage version, supported shard level, dataset directory present. -/
def Inv (db : DB) : Prop :=
  db.readonly = false ∧ db.storage_version = 2 ∧ SupportedSl db.shard_level ∧
    db.disk ≠ Option.none

/-- The value a read-write handle sees for a key: the committed contents
of the key's shard overlaid with the staged operations of the shard's
open transaction (the lookup `__getitem__` performs on a read-write
handle). -/
def liveGet (db : DB) (k : List Nat) : Option (List Nat) :=
  alookup (encode_key k)
    (applyOps (diskShard db.disk (routeOf db k)) (txnOps db.txns (routeOf db k)))

/-- States reachable by a read-write handle opened on a current-format
dataset: the induction invariant of the commit-duality proof (each shard
has at most one registered transaction, since `_transactions` is a
dict keyed by shard). -/
def Inv2 (db : DB) : Prop :=
  db.readonly = false ∧ db.storage_version = 2 ∧ SupportedSl db.shard_level ∧
    db.disk ≠ Option.none ∧ (db.txns.map Prod.fst).Nodup

/-- A fresh read-write handle on an empty dataset whose commit interval
is 1, so every tracked write commits at once. -/
def dbSeq0 : DB := ⟨false, 2, 0, some [], true, [], 0, 1⟩

/-- `dbSeq0` after writing the pickled `None` under the one-byte key
`b"a"`: the write committed immediately (interval 1), so shard `"0"`
now holds it and no transaction is open. -/
def dbSeq1 : DB := ⟨false, 2, 0, some [("0", [([97], [128, 5, 78, 46])])], true, [], 0, 1⟩

/-- The state `__setitem__` stages before `_track_write` runs: the
shard's environment and transaction registered, the encoded pair
appended to the shard's staged operations. -/
def setitemMid (k : List Nat) (v : PyVal) (db : DB) : DB :=
  let sh := routeOf db k
  let db2 := getTxn db sh
  { db2 with txns := txnAppend db2.txns sh (.put (encode_key k) (encode_value v)) }

/-! ## Construction (`Bigdict.__init__`, lines 90-169)

`__init__` reads `info.json` and validates the storage format before any
data access: `storage_version` 0 (the removed RocksDB backend, also the
default when the field is missing) is always rejected, and version 1
with a shard level above 1 is rejected as unreliable.  No shard
environment is opened at construction. -/

/-- The persisted `info.json` fields (each may be missing). -/
structure Info where
  storage_version : Option Nat
  shard_level : Option Nat
  key_pickle_protocol : Option Nat
deriving DecidableEq

/-- List-level substring occurrence: prefix test. -/
def hasPrefixL : List Char → List Char → Bool
  | [], _ => true
  | _ :: _, [] => false
  | a :: as, b :: bs => a = b && hasPrefixL as bs

/-- List-level substring occurrence. -/
def containsL (pat : List Char) : List Char → Bool
  | [] => pat.isEmpty
  | b :: bs => hasPrefixL pat (b :: bs) || containsL pat bs

/-- Whether `pat` occurs contiguously in `text`. -/
def strContains (text pat : String) : Bool := containsL pat.toList text.toList

/-- `Bigdict.__init__` given the parsed `info.json` and whatever data
directories exist on disk; failures (`raise RuntimeError`) are
`Except.error` with the source's message. -/
def bigdictInit (info : Info) (disk : Option (List (String × ShardData)))
    (readonly : Bool) : Except String DB :=
  let sv := info.storage_version.getD 0
  if sv = 0 then
    .error "Support for RocksDB storage is removed in version 0.2.8. Please use Bigdict <= 0.2.7 to migrate this old dataset to the new format."
  else
    let sl := info.shard_level.getD 0
    if sv = 1 ∧ 1 < sl then
      .error "Storage version 1 is no longer supported. Please create new datasets to use a newer storage format."
    else
      .ok ⟨readonly, sv, sl, disk, true, [], 0, 100000⟩

/-! ## Compaction (`Bigdict.compact`, lines 814-887)

`compact` copies each shard environment into a sibling `<shard>-new`
directory, opens the copy, compares entry counts, and on success
replaces the original directory by the copy under the original name.
The loop aborts on the first failure: an exception while opening the
copy is re-raised after the temporary directory is removed (lines
857-861), and an entry-count mismatch removes the temporary directory
and raises `RuntimeError` (lines 873-877).  The model keeps the `db`
directory listing as an association list from directory name to
directory content; the LMDB engine's copy and open operations are
abstract parameters. -/

/-- On-disk content of one shard directory: the entry count reported by
`stat()` and an opaque token standing for the exact bytes. -/
structure Dir where
  entries : Nat
  blob : Nat
deriving DecidableEq

/-- The abstract storage engine used by `compact`: `copyDir` is what
`db.copy(path_new, compact=True)` leaves in the temporary directory,
and `openCopyErr` tells whether `self._env(shard_new)` raises for the
given shard, and with which message. -/
structure Engine where
  copyDir : Dir → Dir
  openCopyErr : String → Option String

/-- The exception escaping `compact`: either the engine's own exception
re-raised from the `except` branch, or the `RuntimeError` of the
entry-count check. -/
inductive CompErr where
  | engine : String → CompErr
  | mismatch : String → Nat → Nat → CompErr
deriving DecidableEq

/-- The message of the escaping exception (line 876 for the mismatch). -/
def compactMsg : CompErr → String
  | .engine msg => msg
  | .mismatch sh n nn =>
      "expecting " ++ toString n ++ " entries but got " ++ toString nn ++ " for shard \"" ++ sh ++ "\""

/-- The per-shard loop of `compact` (lines 849-878): returns the final
directory listing and the escaping exception, if any.  On success the
compacted copy is renamed over the original (same name, new content);
on failure the temporary directory is removed and the loop stops, so
the failing and remaining shards keep their original directories. -/
def compactShards (eng : Engine) : List (String × Dir) → List (String × Dir) × Option CompErr
  | [] => ([], Option.none)
  | (sh, d) :: rest =>
    match eng.openCopyErr sh with
    | some msg => ((sh, d) :: rest, some (CompErr.engine msg))
    | Option.none =>
      if (eng.copyDir d).entries = d.entries then
        ((sh, eng.copyDir d) :: (compactShards eng rest).1, (compactShards eng rest).2)
      else
        ((sh, d) :: rest, some (CompErr.mismatch sh d.entries (eng.copyDir d).entries))

/-- Engine whose copies always open and keep the entry count except on
directories with content token 9. -/
def engW : Engine :=
  ⟨fun d => if d.blob = 9 then ⟨d.entries + 1, 0⟩ else ⟨d.entries, 0⟩, fun _ => Option.none⟩

/-- Engine whose compacted copy cannot be opened; the engine's message
mentions no shard name. -/
def engBad : Engine := ⟨fun d => d, fun _ => some "engine failure"⟩

end Bigdict

/-- Decoding the UTF-8 encoding of one valid code point peels it off and
continues. -/
theorem Bigdict.utf8Char_decode (c : Nat) (hc : Bigdict.ValidCp c) (rest : List Nat) :
    Bigdict.utf8Decode (Bigdict.utf8Char c ++ rest) =
      (Bigdict.utf8Decode rest).map (c :: ·) := by
  unfold Bigdict.ValidCp at hc
  unfold Bigdict.utf8Char
  by_cases h1 : c < 128
  · rw [if_pos h1]
    simp only [List.cons_append, List.nil_append]
    simp only [Bigdict.utf8Decode, if_pos h1]
  · rw [if_neg h1]
    by_cases h2 : c < 2048
    · rw [if_pos h2]
      simp only [List.cons_append, List.nil_append]
      simp only [Bigdict.utf8Decode]
      rw [if_neg (by omega), if_neg (by omega), if_pos (by omega)]
      simp only [Bigdict.utf8Cont1]
      rw [if_pos (by omega)]
      have hv : (192 + c / 64 - 192) * 64 + (128 + c % 64 - 128) = c := by omega
      rw [hv]
    · rw [if_neg h2]
      by_cases h3 : c < 65536
      · rw [if_pos h3]
        simp only [List.cons_append, List.nil_append]
        simp only [Bigdict.utf8Decode]
        rw [if_neg (by omega), if_neg (by omega), if_neg (by omega), if_pos (by omega)]
        simp only [Bigdict.utf8Cont2]
        rw [if_pos (by omega)]
        have hv : (224 + c / 4096 - 224) * 4096 + (128 + c / 64 % 64 - 128) * 64 +
            (128 + c % 64 - 128) = c := by omega
        rw [hv]
      · rw [if_neg h3]
        simp only [List.cons_append, List.nil_append]
        simp only [Bigdict.utf8Decode]
        rw [if_neg (by omega), if_neg (by omega), if_neg (by omega), if_neg (by omega),
          if_pos (by omega)]
        simp only [Bigdict.utf8Cont3]
        rw [if_pos (by omega)]
        have hv : (240 + c / 262144 - 240) * 262144 + (128 + c / 4096 % 64 - 128) * 4096 +
            (128 + c / 64 % 64 - 128) * 64 + (128 + c % 64 - 128) = c := by omega
        rw [hv]

/-- UTF-8 round trip over code-point lists. -/
theorem Bigdict.utf8_roundtrip (k : List Nat) (hk : ∀ c ∈ k, Bigdict.ValidCp c) :
    Bigdict.utf8Decode (Bigdict.encode_key k) = some k := by
  induction k with
  | nil => rfl
  | cons c k ih =>
      have hc : Bigdict.ValidCp c := hk c (List.mem_cons_self c k)
      have hrest : ∀ x ∈ k, Bigdict.ValidCp x := fun x hx => hk x (List.mem_cons_of_mem c hx)
      have ih2 := ih hrest
      simp only [Bigdict.encode_key] at ih2 ⊢
      rw [List.flatMap_cons, Bigdict.utf8Char_decode c hc, ih2]
      rfl

/-- The unpickler never reads the memo (the modelled pickles contain no
`GET`), so the memo does not influence the result. -/
theorem Bigdict.runB_memo (input : List Nat) :
    ∀ m stk memo1 memo2,
      Bigdict.runB input m stk memo1 = Bigdict.runB input m stk memo2 := by
  induction input with
  | nil => intro m stk memo1 memo2; rfl
  | cons b rest ih =>
      intro m stk memo1 memo2
      match m with
      | .op =>
          simp only [Bigdict.runB]
          cases Bigdict.opStep b stk with
          | halt r => rfl
          | next m2 stk2 mp => exact ih m2 stk2 _ _
      | .read k 0 acc =>
          simp only [Bigdict.runB]
          cases Bigdict.readStep k (acc ++ [b]) stk with
          | halt r => rfl
          | next m2 stk2 mp => exact ih m2 stk2 _ _
      | .read k (n + 1) acc =>
          simp only [Bigdict.runB]
          exact ih _ _ _ _

/-- Running the machine over the bytes of one multi-byte argument:
consume them all, then dispatch. -/
theorem Bigdict.runB_read_chain (payload : List Nat) :
    ∀ n k acc stk memo rest, payload.length = n + 1 →
      Bigdict.runB (payload ++ rest) (.read k n acc) stk memo =
        (match Bigdict.readStep k (acc ++ payload) stk with
         | .halt r => r
         | .next m stk2 mp => Bigdict.runB rest m stk2 (memo ++ mp.toList)) := by
  induction payload with
  | nil => intro n k acc stk memo rest h; simp at h
  | cons p ps ih =>
      intro n k acc stk memo rest h
      cases ps with
      | nil =>
          have hn : n = 0 := by simp at h; omega
          subst hn
          simp only [List.cons_append, List.nil_append, Bigdict.runB]
          rfl
      | cons q qs =>
          have hn : n = qs.length + 1 := by simp at h; omega
          subst hn
          simp only [List.cons_append, Bigdict.runB]
          simpa [List.append_assoc] using ih qs.length k (acc ++ [p]) stk memo rest (by simp)

/-- `encTwosF` with positive fuel returns at least one byte. -/
theorem Bigdict.encTwosF_ne_nil (fuel : Nat) (x : Int) :
    Bigdict.encTwosF (fuel + 1) x ≠ [] := by
  simp only [Bigdict.encTwosF]
  split_ifs <;> simp

/-- Two's-complement decoding inverts `encTwosF` when the fuel exceeds
the magnitude. -/
theorem Bigdict.decTwos_encTwosF (fuel : Nat) :
    ∀ x : Int, x.natAbs < fuel → Bigdict.decTwos (Bigdict.encTwosF fuel x) = x := by
  induction fuel with
  | zero => intro x hx; omega
  | succ fuel ih =>
      intro x hx
      simp only [Bigdict.encTwosF]
      by_cases h1 : x / 256 = 0 ∧ (x % 256).toNat < 128
      · rw [if_pos h1]
        simp only [Bigdict.decTwos, if_pos h1.2]
        omega
      · rw [if_neg h1]
        by_cases h2 : x / 256 = -1 ∧ 128 ≤ (x % 256).toNat
        · rw [if_pos h2]
          simp only [Bigdict.decTwos, if_neg (by omega : ¬(x % 256).toNat < 128)]
          omega
        · rw [if_neg h2]
          have hrec : (x / 256).natAbs < fuel := by omega
          have hne := Bigdict.encTwosF_ne_nil (fuel - 1) (x / 256)
          have hfuel : fuel - 1 + 1 = fuel := by omega
          rw [hfuel] at hne
          match hm : Bigdict.encTwosF fuel (x / 256) with
          | [] => exact absurd hm hne
          | c :: t =>
              have hd : Bigdict.decTwos ((x % 256).toNat :: c :: t) =
                  ((x % 256).toNat : Int) + 256 * Bigdict.decTwos (c :: t) := rfl
              rw [hd]
              have := ih (x / 256) hrec
              rw [hm] at this
              rw [this]
              omega

/-- Two's-complement decoding inverts `encTwos`. -/
theorem Bigdict.decTwos_encTwos (x : Int) :
    Bigdict.decTwos (Bigdict.encTwos x) = x :=
  Bigdict.decTwos_encTwosF _ x (by omega)

/-- `encTwos` is never empty. -/
theorem Bigdict.encTwos_ne_nil (x : Int) : Bigdict.encTwos x ≠ [] :=
  Bigdict.encTwosF_ne_nil _ x

/-- Reading back two little-endian bytes. -/
theorem Bigdict.leNat_le2 (n : Nat) : Bigdict.leNat (Bigdict.le2 n) = n % 65536 := by
  simp [Bigdict.leNat, Bigdict.le2]; omega

/-- Reading back four little-endian bytes. -/
theorem Bigdict.leNat_le4 (n : Nat) : Bigdict.leNat (Bigdict.le4 n) = n % 4294967296 := by
  simp [Bigdict.leNat, Bigdict.le4]; omega

/-- Reading back eight little-endian bytes. -/
theorem Bigdict.leNat_le8 (n : Nat) :
    Bigdict.leNat (Bigdict.le8 n) = n % 18446744073709551616 := by
  simp [Bigdict.leNat, Bigdict.le8]; omega

/-- The defining step of `runB` at an opcode boundary. -/
theorem Bigdict.runB_op (b : Nat) (rest : List Nat) (stk : List Bigdict.SVal)
    (memo : List Bigdict.PyVal) :
    Bigdict.runB (b :: rest) .op stk memo =
      (match Bigdict.opStep b stk with
       | .halt r => r
       | .next m stk2 mp => Bigdict.runB rest m stk2 (memo ++ mp.toList)) := by
  simp only [Bigdict.runB]

/-- One-point UTF-8 encodings are nonempty. -/
theorem Bigdict.utf8Char_ne_nil (c : Nat) : Bigdict.utf8Char c ≠ [] := by
  unfold Bigdict.utf8Char
  split_ifs <;> simp

/-- Only the empty string UTF-8 encodes to no bytes. -/
theorem Bigdict.encode_key_eq_nil (s : List Nat) (h : Bigdict.encode_key s = []) :
    s = [] := by
  cases s with
  | nil => rfl
  | cons c cs =>
      exfalso
      simp only [Bigdict.encode_key, List.flatMap_cons, List.append_eq_nil] at h
      exact Bigdict.utf8Char_ne_nil c h.1

/-- Membership preserves elementwise validity. -/
theorem Bigdict.validElems_mem {xs : List Bigdict.PyVal} {x : Bigdict.PyVal}
    (hxs : Bigdict.ValidElems xs) (hx : x ∈ xs) : Bigdict.ValidVal x := by
  induction xs with
  | nil => cases hx
  | cons y ys ih =>
      unfold Bigdict.ValidElems at hxs
      rcases List.mem_cons.mp hx with rfl | hmem
      · exact hxs.1
      · exact ih hxs.2 hmem

/-- Popping to the mark recovers the pushed objects in push order. -/
theorem Bigdict.popMark_objs (zs : List Bigdict.PyVal) (s : List Bigdict.SVal) :
    Bigdict.popMark ((zs.map Bigdict.SVal.obj) ++ Bigdict.SVal.mark :: s) =
      some (zs.reverse, s) := by
  induction zs with
  | nil => simp [Bigdict.popMark]
  | cons z zs ih => simp [Bigdict.popMark, ih]

/-- Pushing a run of item bodies stacks the items in reverse order. -/
theorem Bigdict.elemsOk (xs : List Bigdict.PyVal)
    (hsave : ∀ x ∈ xs, ∀ rest stk memo,
      Bigdict.runB (Bigdict.save x ++ rest) .op stk memo =
        Bigdict.runB rest .op (.obj x :: stk) memo) :
    ∀ rest stk memo,
      Bigdict.runB (Bigdict.saveElems xs ++ rest) .op stk memo =
        Bigdict.runB rest .op ((xs.map Bigdict.SVal.obj).reverse ++ stk) memo := by
  induction xs with
  | nil => intro rest stk memo; simp [Bigdict.saveElems]
  | cons x xs ih =>
      intro rest stk memo
      have hx := hsave x (List.mem_cons_self x xs)
      have hxs := fun y hy => hsave y (List.mem_cons_of_mem x hy)
      simp only [Bigdict.saveElems, List.append_assoc]
      rw [hx, ih hxs]
      simp [List.append_assoc]

/-- `batch_appends` extends the list under construction by the items. -/
theorem Bigdict.itemsOk (xs : List Bigdict.PyVal)
    (hsave : ∀ x ∈ xs, ∀ rest stk memo,
      Bigdict.runB (Bigdict.save x ++ rest) .op stk memo =
        Bigdict.runB rest .op (.obj x :: stk) memo) :
    ∀ l rest stk memo,
      Bigdict.runB (Bigdict.saveItems xs ++ rest) .op (.obj (.list l) :: stk) memo =
        Bigdict.runB rest .op (.obj (.list (l ++ xs)) :: stk) memo := by
  match xs with
  | [] => intro l rest stk memo; simp [Bigdict.saveItems]
  | [x] =>
      intro l rest stk memo
      have hx := hsave x (List.mem_cons_self x [])
      simp only [Bigdict.saveItems, List.append_assoc, List.singleton_append]
      rw [hx]
      simp [Bigdict.runB, Bigdict.opStep]
  | x :: y :: zs =>
      intro l rest stk memo
      simp only [Bigdict.saveItems, List.cons_append, List.append_assoc,
        List.singleton_append]
      rw [Bigdict.runB_op]
      simp only [Bigdict.opStep]
      norm_num
      rw [show Bigdict.save x ++ (Bigdict.save y ++ (Bigdict.saveElems zs ++ 101 :: rest)) =
            Bigdict.saveElems (x :: y :: zs) ++ (101 :: rest) from by
          simp [Bigdict.saveElems, List.append_assoc]]
      rw [Bigdict.elemsOk (x :: y :: zs) hsave]
      rw [Bigdict.runB_op]
      simp only [Bigdict.opStep]
      norm_num
      rw [show (List.map Bigdict.SVal.obj zs).reverse ++
            Bigdict.SVal.obj y :: Bigdict.SVal.obj x :: Bigdict.SVal.mark ::
              Bigdict.SVal.obj (Bigdict.PyVal.list l) :: stk =
          ((zs.reverse ++ [y, x]).map Bigdict.SVal.obj) ++
            Bigdict.SVal.mark :: Bigdict.SVal.obj (Bigdict.PyVal.list l) :: stk from by
        simp]
      rw [Bigdict.popMark_objs]
      simp

/-- Running one value's body pushes that value and continues. -/
theorem Bigdict.saveOk (v : Bigdict.PyVal) (hvv : Bigdict.ValidVal v) :
    ∀ rest stk memo,
      Bigdict.runB (Bigdict.save v ++ rest) .op stk memo =
        Bigdict.runB rest .op (.obj v :: stk) memo := by
  have main : ∀ N (v : Bigdict.PyVal), sizeOf v < N → Bigdict.ValidVal v →
      ∀ rest stk memo,
        Bigdict.runB (Bigdict.save v ++ rest) .op stk memo =
          Bigdict.runB rest .op (.obj v :: stk) memo := by
    intro N
    induction N with
    | zero => intro v h; omega
    | succ N ih =>
        intro v hsz hv rest stk memo
        cases v with
        | none =>
            simp only [Bigdict.save, List.singleton_append]
            rw [Bigdict.runB_op]
            simp [Bigdict.opStep]
        | bool b =>
            cases b with
            | true =>
                simp only [Bigdict.save, List.singleton_append]
                rw [Bigdict.runB_op]
                simp [Bigdict.opStep]
            | false =>
                simp only [Bigdict.save, List.singleton_append]
                rw [Bigdict.runB_op]
                simp [Bigdict.opStep]
        | int i =>
            simp only [Bigdict.save, Bigdict.saveInt]
            by_cases h1 : 0 ≤ i ∧ i < 256
            · rw [if_pos h1]
              simp only [List.cons_append, List.nil_append]
              rw [Bigdict.runB_op]
              simp only [Bigdict.opStep]
              norm_num
              simp [Bigdict.runB, Bigdict.readStep, Int.toNat_of_nonneg h1.1]
            · rw [if_neg h1]
              by_cases h2 : 0 ≤ i ∧ i < 65536
              · rw [if_pos h2]
                simp only [List.cons_append]
                rw [Bigdict.runB_op]
                simp only [Bigdict.opStep]
                norm_num
                rw [Bigdict.runB_read_chain (Bigdict.le2 i.toNat) 1 _ _ _ _ _
                  (by simp [Bigdict.le2])]
                have hval : (Bigdict.leNat (Bigdict.le2 i.toNat) : Int) = i := by
                  rw [Bigdict.leNat_le2]; omega
                simp [Bigdict.readStep, hval]
              · rw [if_neg h2]
                by_cases h3 : -2147483648 ≤ i ∧ i < 2147483648
                · rw [if_pos h3]
                  simp only [List.cons_append]
                  rw [Bigdict.runB_op]
                  simp only [Bigdict.opStep]
                  norm_num
                  rw [Bigdict.runB_read_chain (Bigdict.le4 ((i % 4294967296).toNat)) 3 _ _ _ _ _
                    (by simp [Bigdict.le4])]
                  have hval : (if Bigdict.leNat (Bigdict.le4 ((i % 4294967296).toNat)) < 2147483648
                      then (Bigdict.leNat (Bigdict.le4 ((i % 4294967296).toNat)) : Int)
                      else (Bigdict.leNat (Bigdict.le4 ((i % 4294967296).toNat)) : Int) -
                        4294967296) = i := by
                    rw [Bigdict.leNat_le4]
                    split_ifs <;> omega
                  simp only [Bigdict.readStep, List.nil_append]
                  rw [hval]
                  simp
                · rw [if_neg h3]
                  have hne : Bigdict.encTwos i ≠ [] := Bigdict.encTwos_ne_nil i
                  have hlen : (Bigdict.encTwos i).length ≠ 0 := by
                    simpa [List.length_eq_zero] using hne
                  by_cases h4 : (Bigdict.encTwos i).length < 256
                  · rw [if_pos h4]
                    simp only [List.cons_append]
                    rw [Bigdict.runB_op]
                    simp only [Bigdict.opStep]
                    norm_num
                    simp only [Bigdict.runB]
                    simp only [Bigdict.readStep, List.nil_append]
                    rw [if_neg hlen]
                    dsimp only
                    rw [Bigdict.runB_read_chain (Bigdict.encTwos i)
                      ((Bigdict.encTwos i).length - 1) _ _ _ _ _ (by omega)]
                    simp [Bigdict.readStep, Bigdict.decTwos_encTwos]
                  · rw [if_neg h4]
                    have hlt : (Bigdict.encTwos i).length < 4294967296 := by
                      simpa [Bigdict.ValidVal] using hv
                    simp only [List.cons_append, List.append_assoc]
                    rw [Bigdict.runB_op]
                    simp only [Bigdict.opStep]
                    norm_num
                    rw [Bigdict.runB_read_chain (Bigdict.le4 (Bigdict.encTwos i).length) 3
                      _ _ _ _ _ (by simp [Bigdict.le4])]
                    simp only [Bigdict.readStep, List.nil_append, Bigdict.leNat_le4]
                    rw [Nat.mod_eq_of_lt hlt, if_neg hlen]
                    dsimp only
                    rw [Bigdict.runB_read_chain (Bigdict.encTwos i)
                      ((Bigdict.encTwos i).length - 1) _ _ _ _ _ (by omega)]
                    simp [Bigdict.readStep, Bigdict.decTwos_encTwos]
        | str s =>
            have hvs : (∀ c ∈ s, Bigdict.ValidCp c) ∧
                (Bigdict.encode_key s).length < 18446744073709551616 := by
              simpa [Bigdict.ValidVal] using hv
            simp only [Bigdict.save, Bigdict.saveStr]
            by_cases h1 : (Bigdict.encode_key s).length < 256
            · rw [if_pos h1]
              simp only [List.cons_append, List.append_assoc]
              rw [Bigdict.runB_op]
              simp only [Bigdict.opStep]
              norm_num
              simp only [Bigdict.runB]
              simp only [Bigdict.readStep, List.nil_append]
              by_cases h0 : (Bigdict.encode_key s).length = 0
              · have hs : s = [] := Bigdict.encode_key_eq_nil s (List.length_eq_zero.mp h0)
                subst hs
                rw [if_pos h0]
                dsimp only
                simp only [show Bigdict.encode_key [] = [] from rfl, List.nil_append,
                  List.singleton_append]
                rw [Bigdict.runB_op]
                simp only [Bigdict.opStep]
                norm_num
                exact Bigdict.runB_memo rest .op _ _ _
              · rw [if_neg h0]
                dsimp only
                rw [Bigdict.runB_read_chain (Bigdict.encode_key s)
                  ((Bigdict.encode_key s).length - 1) _ _ _ _ _ (by omega)]
                simp only [Bigdict.readStep, List.nil_append]
                rw [Bigdict.utf8_roundtrip s hvs.1]
                dsimp only
                rw [Bigdict.runB_op]
                simp only [Bigdict.opStep]
                norm_num
                exact Bigdict.runB_memo rest .op _ _ _
            · rw [if_neg h1]
              by_cases h2 : (Bigdict.encode_key s).length < 4294967296
              · rw [if_pos h2]
                simp only [List.cons_append, List.append_assoc]
                rw [Bigdict.runB_op]
                simp only [Bigdict.opStep]
                norm_num
                rw [Bigdict.runB_read_chain (Bigdict.le4 (Bigdict.encode_key s).length) 3
                  _ _ _ _ _ (by simp [Bigdict.le4])]
                simp only [Bigdict.readStep, List.nil_append, Bigdict.leNat_le4]
                rw [Nat.mod_eq_of_lt h2, if_neg (by omega)]
                dsimp only
                rw [Bigdict.runB_read_chain (Bigdict.encode_key s)
                  ((Bigdict.encode_key s).length - 1) _ _ _ _ _ (by omega)]
                simp only [Bigdict.readStep, List.nil_append]
                rw [Bigdict.utf8_roundtrip s hvs.1]
                dsimp only
                rw [Bigdict.runB_op]
                simp only [Bigdict.opStep]
                norm_num
                exact Bigdict.runB_memo rest .op _ _ _
              · rw [if_neg h2]
                simp only [List.cons_append, List.append_assoc]
                rw [Bigdict.runB_op]
                simp only [Bigdict.opStep]
                norm_num
                rw [Bigdict.runB_read_chain (Bigdict.le8 (Bigdict.encode_key s).length) 7
                  _ _ _ _ _ (by simp [Bigdict.le8])]
                simp only [Bigdict.readStep, List.nil_append, Bigdict.leNat_le8]
                rw [Nat.mod_eq_of_lt hvs.2, if_neg (by omega)]
                dsimp only
                rw [Bigdict.runB_read_chain (Bigdict.encode_key s)
                  ((Bigdict.encode_key s).length - 1) _ _ _ _ _ (by omega)]
                simp only [Bigdict.readStep, List.nil_append]
                rw [Bigdict.utf8_roundtrip s hvs.1]
                dsimp only
                rw [Bigdict.runB_op]
                simp only [Bigdict.opStep]
                norm_num
                exact Bigdict.runB_memo rest .op _ _ _
        | list xs =>
            have hvxs : Bigdict.ValidElems xs := by simpa [Bigdict.ValidVal] using hv
            have hsave : ∀ x ∈ xs, ∀ rest2 stk2 memo2,
                Bigdict.runB (Bigdict.save x ++ rest2) .op stk2 memo2 =
                  Bigdict.runB rest2 .op (.obj x :: stk2) memo2 := by
              intro x hx rest2 stk2 memo2
              have hszx : sizeOf x < N := by
                have h1 := List.sizeOf_lt_of_mem hx
                have h2 : sizeOf (Bigdict.PyVal.list xs) = 1 + sizeOf xs := by
                  simp
                omega
              exact ih x hszx (Bigdict.validElems_mem hvxs hx) rest2 stk2 memo2
            simp only [Bigdict.save, List.cons_append]
            rw [Bigdict.runB_op]
            simp only [Bigdict.opStep]
            norm_num
            rw [Bigdict.runB_op]
            simp only [Bigdict.opStep]
            norm_num
            rw [Bigdict.itemsOk xs hsave]
            simp only [List.nil_append]
            exact Bigdict.runB_memo rest .op _ _ _
  intro rest stk memo
  exact main (sizeOf v + 1) v (by omega) hvv rest stk memo

/-- Unpickling inverts pickling on the modelled value universe. -/
theorem Bigdict.pickle_roundtrip (v : Bigdict.PyVal) (hv : Bigdict.ValidVal v) :
    Bigdict.loads (Bigdict.dumps v) = some v := by
  simp only [Bigdict.loads, Bigdict.dumps]
  by_cases hb : 4 ≤ (Bigdict.save v ++ [46]).length
  · rw [if_pos hb]
    rw [Bigdict.runB_op]
    simp only [Bigdict.opStep]
    norm_num
    simp only [Bigdict.runB, Bigdict.readStep, List.nil_append]
    norm_num
    rw [Bigdict.runB_op]
    simp only [Bigdict.opStep]
    norm_num
    rw [Bigdict.runB_read_chain (Bigdict.le8 ((Bigdict.save v).length + 1)) 7 _ _ _ _ _
      (by simp [Bigdict.le8])]
    simp only [Bigdict.readStep]
    rw [Bigdict.saveOk v hv]
    rw [Bigdict.runB_op]
    simp [Bigdict.opStep]
  · rw [if_neg hb]
    rw [Bigdict.runB_op]
    simp only [Bigdict.opStep]
    norm_num
    simp only [Bigdict.runB, Bigdict.readStep, List.nil_append]
    norm_num
    rw [Bigdict.saveOk v hv]
    rw [Bigdict.runB_op]
    simp [Bigdict.opStep]


/-- C8: with the default codecs, decoding inverts encoding: for every
string key (valid Unicode code points), `decode_key (encode_key k) = k`,
and for every value representable by the codec (the modelled picklable
universe), `decode_value (encode_value v) = v`. -/
theorem Bigdict.codec_roundtrip (k : List Nat) (v : Bigdict.PyVal)
    (hk : ∀ c ∈ k, Bigdict.ValidCp c) (hv : Bigdict.ValidVal v) :
    Bigdict.decode_key (Bigdict.encode_key k) = some k ∧
      Bigdict.decode_value (Bigdict.encode_value v) = some v :=
  ⟨Bigdict.utf8_roundtrip k hk, Bigdict.pickle_roundtrip v hv⟩

/-- Witness for C8 at key `"ab"` and value `[1, "a"]`. -/
theorem Bigdict.codec_roundtrip_witness :
    ((∀ c ∈ [97, 98], Bigdict.ValidCp c) ∧
      Bigdict.ValidVal (.list [.int 1, .str [97]])) ∧
    (Bigdict.decode_key (Bigdict.encode_key [97, 98]) = some [97, 98] ∧
      Bigdict.decode_value (Bigdict.encode_value (.list [.int 1, .str [97]])) =
        some (.list [.int 1, .str [97]])) := by
  have hk : ∀ c ∈ [97, 98], Bigdict.ValidCp c := by decide
  have hv : Bigdict.ValidVal (.list [.int 1, .str [97]]) := by
    simp only [Bigdict.ValidVal, Bigdict.ValidElems]
    refine ⟨by decide, ⟨by decide, by decide⟩, trivial⟩
  exact ⟨⟨hk, hv⟩, Bigdict.codec_roundtrip [97, 98] (.list [.int 1, .str [97]]) hk hv⟩


/-- Appending a fresh binding at the end is invisible until every earlier
binding misses. -/
theorem Bigdict.alookup_append_single {α β : Type} [DecidableEq α]
    (m : List (α × β)) (k k2 : α) (x : β) :
    Bigdict.alookup k2 (m ++ [(k, x)]) =
      (Bigdict.alookup k2 m).or (if k = k2 then some x else Option.none) := by
  induction m with
  | nil => simp [Bigdict.alookup]
  | cons p rest ih =>
      by_cases h : p.1 = k2
      · simp [Bigdict.alookup, h]
      · simp only [List.cons_append, Bigdict.alookup, if_neg h]
        exact ih

/-- Opening a shard's environment does not change any shard's visible
contents (a missing directory reads as empty either way). -/
theorem Bigdict.diskShard_envEnsure (d : Option (List (String × Bigdict.ShardData)))
    (sh sh2 : String) :
    Bigdict.diskShard (Bigdict.envEnsure d sh) sh2 = Bigdict.diskShard d sh2 := by
  cases d with
  | none =>
      unfold Bigdict.envEnsure Bigdict.diskShard
      by_cases h : sh = sh2 <;> simp [Bigdict.alookup, h]
  | some m =>
      unfold Bigdict.envEnsure Bigdict.diskShard
      by_cases hp : (Bigdict.alookup sh m).isSome
      · simp [hp]
      · simp only [hp, Bool.false_eq_true, if_false, Bigdict.alookup_append_single]
        cases hl : Bigdict.alookup sh2 m with
        | some l => simp [hl]
        | none => by_cases h : sh = sh2 <;> simp [hl, h]

/-- Registering a shard's transaction does not change any transaction's
staged operations (a fresh transaction has none). -/
theorem Bigdict.txnOps_getTxn (db : Bigdict.DB) (sh sh2 : String) :
    Bigdict.txnOps (Bigdict.getTxn db sh).txns sh2 = Bigdict.txnOps db.txns sh2 := by
  unfold Bigdict.getTxn Bigdict.txnOps
  by_cases hp : (Bigdict.alookup sh db.txns).isSome
  · simp [hp]
  · simp only [hp, Bool.false_eq_true, if_false, Bigdict.alookup_append_single]
    cases hl : Bigdict.alookup sh2 db.txns with
    | some l => simp [hl]
    | none => by_cases h : sh = sh2 <;> simp [hl, h]

/-- `_track_write` in closed form on a read-write handle. -/
theorem Bigdict.track_write_spec (n : Nat) (db : Bigdict.DB) (h : db.readonly = false) :
    Bigdict.track_write n db =
      if n < 1 then (db, .ok ())
      else if db.interval ≤ db.pending + n then
        ({ db with disk := Bigdict.commitTxns db.disk db.txns, pending := 0, txns := [] },
          .ok ())
      else ({ db with pending := db.pending + n }, .ok ()) := by
  unfold Bigdict.track_write
  by_cases h1 : n < 1
  · simp [h1]
  · simp only [if_neg h1]
    by_cases h2 : db.interval ≤ db.pending + n
    · simp [h2, Bigdict.commit, h]
    · simp [h2]

/-- Grouping propagates errors. -/
theorem Bigdict.sharddata_error (sv sl : Nat) (l : List (List Nat × Bigdict.PyVal))
    (e : Bigdict.PyErr) :
    l.foldl (Bigdict.sharddataStep sv sl) (.error e) = .error e := by
  induction l with
  | nil => rfl
  | cons q qs ih => simp [List.foldl_cons, Bigdict.sharddataStep, ih]

/-- Total staged size of grouped update data: one entry per pair. -/
theorem Bigdict.sharddata_total (sv sl : Nat) (pairs : List (List Nat × Bigdict.PyVal))
    (sd : List (String × List (List Nat × List Nat)))
    (h : Bigdict.sharddataOf sv sl pairs = .ok sd) :
    sd.foldl (fun n p => n + p.2.length) 0 = pairs.length := by
  have key : ∀ (l : List (String × List (List Nat × List Nat))) (n : Nat),
      l.foldl (fun n p => n + p.2.length) n = n + (l.map (fun p => p.2.length)).sum := by
    intro l
    induction l with
    | nil => intro n; simp
    | cons p rest ih => intro n; simp [ih]; omega
  have step : ∀ (d : List (String × List (List Nat × List Nat))) (sh : String)
      (x : List Nat × List Nat),
      ((Bigdict.aset sh ((Bigdict.alookup sh d).getD [] ++ [x]) d).map
        (fun p => p.2.length)).sum = (d.map (fun p => p.2.length)).sum + 1 := by
    intro d
    induction d with
    | nil => intro sh x; simp [Bigdict.aset, Bigdict.alookup]
    | cons p rest ih =>
        intro sh x
        by_cases hp : p.1 = sh
        · simp [Bigdict.aset, Bigdict.alookup, hp]
          omega
        · simp only [Bigdict.aset, Bigdict.alookup, if_neg hp, List.map_cons, List.sum_cons]
          rw [ih]
          omega
  have aux : ∀ (ps : List (List Nat × Bigdict.PyVal))
      (acc sd2 : List (String × List (List Nat × List Nat))),
      ps.foldl (Bigdict.sharddataStep sv sl) (.ok acc) = .ok sd2 →
      (sd2.map (fun p => p.2.length)).sum =
        (acc.map (fun p => p.2.length)).sum + ps.length := by
    intro ps
    induction ps with
    | nil => intro acc sd2 hh; simp at hh; subst hh; simp
    | cons p rest ih =>
        intro acc sd2 hh
        simp only [List.foldl_cons] at hh
        cases hsh : Bigdict.shard sv sl (Bigdict.encode_key p.1) with
        | error e =>
            rw [show Bigdict.sharddataStep sv sl (.ok acc) p =
                .error (.valueError e) from by simp [Bigdict.sharddataStep, hsh]] at hh
            rw [Bigdict.sharddata_error] at hh
            cases hh
        | ok sh =>
            rw [show Bigdict.sharddataStep sv sl (.ok acc) p =
                .ok (Bigdict.aset sh ((Bigdict.alookup sh acc).getD [] ++
                  [(Bigdict.encode_key p.1, Bigdict.encode_value p.2)]) acc) from by
              simp [Bigdict.sharddataStep, hsh]] at hh
            have h2 := ih _ _ hh
            rw [h2, step]
            simp only [List.length_cons]
            omega
  unfold Bigdict.sharddataOf at h
  have h2 := aux pairs [] sd h
  simp at h2
  rw [key]
  omega

/-- The pending-write counter after tracking `n` more writes. -/
def Bigdict.pendingAfter (db : Bigdict.DB) (n : Nat) : Nat :=
  if n < 1 then db.pending
  else if db.interval ≤ db.pending + n then 0
  else db.pending + n

/-- Number of writes a `pop` of key `k` performs on `db`: one when the
key is visible through the shard's transaction, none otherwise. -/
def Bigdict.popCount (db : Bigdict.DB) (k : List Nat) : Nat :=
  match Bigdict.shard db.storage_version db.shard_level (Bigdict.encode_key k) with
  | .ok sh =>
      if (Bigdict.alookup (Bigdict.encode_key k)
          (Bigdict.applyOps (Bigdict.diskShard db.disk sh)
            (Bigdict.txnOps db.txns sh))).isSome then 1 else 0
  | .error _ => 0

/-- Staging update batches touches only `disk` (directory creation) and
`txns`; the bookkeeping fields are untouched. -/
theorem Bigdict.stage_fold_fields (sd : List (String × List (List Nat × List Nat))) :
    ∀ db : Bigdict.DB,
      (sd.foldl Bigdict.stageShard db).readonly = db.readonly ∧
      (sd.foldl Bigdict.stageShard db).pending = db.pending ∧
      (sd.foldl Bigdict.stageShard db).interval = db.interval := by
  induction sd with
  | nil => intro db; exact ⟨rfl, rfl, rfl⟩
  | cons p rest ih =>
      intro db
      simp only [List.foldl_cons]
      have h := ih (Bigdict.stageShard db p)
      simpa [Bigdict.stageShard, Bigdict.getTxn] using h

/-- A read-write handle with one open transaction holding one staged
write, used as a concrete state in witnesses below.  Fields:
readonly, storage_version, shard_level, disk, hasInfo, txns, pending,
interval. -/
def Bigdict.dbTx : Bigdict.DB :=
  ⟨false, 2, 0, some [("0", [])], true, [("0", [.put [97] [1]])], 1, 100000⟩

/-- A read-write handle with committed contents, no open transactions
and nothing pending. -/
def Bigdict.dbClean : Bigdict.DB :=
  ⟨false, 2, 0, some [("0", [([97], [1])])], true, [], 0, 100000⟩

/-- A read-only handle with no open transactions and nothing pending. -/
def Bigdict.dbRO : Bigdict.DB :=
  ⟨true, 2, 0, some [("0", [])], true, [], 0, 100000⟩

/-- C4: on a read-write handle, `commit` commits every open write
transaction (folding each transaction's staged operations into the
disk), empties the transaction map and resets the pending-write counter
to zero; with no open transactions and no pending writes it succeeds
without error and leaves the state unchanged. -/
theorem Bigdict.commit_spec (db : Bigdict.DB) (h : db.readonly = false) :
    Bigdict.commit db =
      ({ db with disk := Bigdict.commitTxns db.disk db.txns, pending := 0, txns := [] },
        .ok ()) ∧
      (db.txns = [] ∧ db.pending = 0 → Bigdict.commit db = (db, .ok ())) := by
  constructor
  · simp [Bigdict.commit, h]
  · rintro ⟨h1, h2⟩
    cases db
    simp_all [Bigdict.commit, Bigdict.commitTxns]

/-- Witness for C4: the staged write lands on disk, the transaction map
empties, the counter resets; and the no-op case on a clean handle. -/
theorem Bigdict.commit_spec_witness :
    Bigdict.dbTx.readonly = false ∧
    Bigdict.commit Bigdict.dbTx = (Bigdict.dbClean, .ok ()) ∧
    Bigdict.commit Bigdict.dbClean = (Bigdict.dbClean, .ok ()) := by
  refine ⟨rfl, ?_, ?_⟩
  · rw [(Bigdict.commit_spec Bigdict.dbTx rfl).1]
    rfl
  · exact (Bigdict.commit_spec Bigdict.dbClean rfl).2 ⟨rfl, rfl⟩

/-- C9: on a read-only handle, `commit` always raises `ReadonlyError`
(`'commit: Permission denied'`) — even with no open transactions and
nothing pending — and `flush`, which begins with `commit`, raises the
same; the state is untouched. -/
theorem Bigdict.commit_readonly (db : Bigdict.DB) (h : db.readonly = true) :
    Bigdict.commit db = (db, .error (.readonly "commit: Permission denied")) ∧
      Bigdict.flush db = (db, .error (.readonly "commit: Permission denied")) := by
  have hc : Bigdict.commit db = (db, .error (.readonly "commit: Permission denied")) := by
    simp [Bigdict.commit, h]
  refine ⟨hc, ?_⟩
  simp only [Bigdict.flush, hc]

/-- Witness for C9: a read-only handle with no open transactions and no
pending writes still gets `ReadonlyError` from `commit` and `flush`. -/
theorem Bigdict.commit_readonly_witness :
    Bigdict.dbRO.readonly = true ∧ Bigdict.dbRO.txns = [] ∧ Bigdict.dbRO.pending = 0 ∧
    (Bigdict.commit Bigdict.dbRO =
        (Bigdict.dbRO, .error (.readonly "commit: Permission denied")) ∧
      Bigdict.flush Bigdict.dbRO =
        (Bigdict.dbRO, .error (.readonly "commit: Permission denied"))) :=
  ⟨rfl, rfl, rfl, Bigdict.commit_readonly _ rfl⟩

/-- C10: on a read-write handle, beginning iteration over `keys` (hence
`__iter__`) is exactly a `commit`: every open write transaction is
committed to disk and the transaction map is cleared, making all pending
uncommitted writes durable and visible to other handles; beginning
iteration over `values` or `items` commits only when the pending-write
counter is positive, and leaves the handle (open transactions included)
untouched when it is zero. -/
theorem Bigdict.iter_begin_commits (db : Bigdict.DB) (h : db.readonly = false) :
    (Bigdict.keysBegin db = Bigdict.commit db ∧
      (Bigdict.keysBegin db).1.txns = [] ∧
      (Bigdict.keysBegin db).1.disk = Bigdict.commitTxns db.disk db.txns ∧
      (Bigdict.keysBegin db).2 = .ok ()) ∧
    (0 < db.pending →
      Bigdict.valuesBegin db = Bigdict.commit db ∧
        Bigdict.itemsBegin db = Bigdict.commit db) ∧
    (db.pending = 0 →
      Bigdict.valuesBegin db = (db, .ok ()) ∧ Bigdict.itemsBegin db = (db, .ok ())) := by
  have hc : Bigdict.commit db =
      ({ db with disk := Bigdict.commitTxns db.disk db.txns, pending := 0, txns := [] },
        .ok ()) := by
    simp [Bigdict.commit, h]
  refine ⟨⟨?_, ?_, ?_, ?_⟩, ?_, ?_⟩
  · simp [Bigdict.keysBegin, h]
  · simp [Bigdict.keysBegin, h, hc]
  · simp [Bigdict.keysBegin, h, hc]
  · simp [Bigdict.keysBegin, h, hc]
  · intro hp
    constructor <;> simp [Bigdict.valuesBegin, Bigdict.itemsBegin, hp]
  · intro hp
    constructor <;> simp [Bigdict.valuesBegin, Bigdict.itemsBegin, hp]

/-- Witness for C10: starting `keys` on a handle with a staged write
persists it; `values` with a positive counter commits too. -/
theorem Bigdict.iter_begin_commits_witness :
    Bigdict.dbTx.readonly = false ∧
    (Bigdict.keysBegin Bigdict.dbTx).1.disk = some [("0", [([97], [1])])] ∧
    Bigdict.valuesBegin Bigdict.dbTx = Bigdict.commit Bigdict.dbTx := by
  have h := Bigdict.iter_begin_commits Bigdict.dbTx rfl
  exact ⟨rfl, by rw [h.1.2.2.1]; rfl, (h.2.1 (by decide)).1⟩

/-- C5: every successful `__setitem__`, `__delitem__`, `pop` and bulk
`update` on a read-write handle increments the pending-write counter by
the number of writes performed (one per put/delete, one per update pair,
none for a `pop` that falls back to its default), and as soon as the
counter reaches the configured interval an automatic commit runs,
clearing the transaction map and resetting the counter; consequently the
counter is strictly below the interval after every mutating call. -/
theorem Bigdict.mutators_track_writes
    (db : Bigdict.DB) (hro : db.readonly = false) (hint : 0 < db.interval)
    (hpend : db.pending < db.interval)
    (k kd kp : List Nat) (v : Bigdict.PyVal) (dflt : Option Bigdict.PyVal)
    (pairs : List (List Nat × Bigdict.PyVal))
    (db1 db2 db3 db4 : Bigdict.DB) (vp : Bigdict.PyVal)
    (h1 : Bigdict.setitem k v db = (db1, .ok ()))
    (h2 : Bigdict.delitem kd db = (db2, .ok ()))
    (h3 : Bigdict.pop kp dflt db = (db3, .ok vp))
    (h4 : Bigdict.update pairs db = (db4, .ok ())) :
    (db1.pending = Bigdict.pendingAfter db 1 ∧
      (db.interval ≤ db.pending + 1 → db1.txns = [] ∧ db1.pending = 0) ∧
      db1.pending < db.interval) ∧
    (db2.pending = Bigdict.pendingAfter db 1 ∧
      (db.interval ≤ db.pending + 1 → db2.txns = [] ∧ db2.pending = 0) ∧
      db2.pending < db.interval) ∧
    (db3.pending = Bigdict.pendingAfter db (Bigdict.popCount db kp) ∧
      db3.pending < db.interval) ∧
    (db4.pending = Bigdict.pendingAfter db pairs.length ∧
      (1 ≤ pairs.length → db.interval ≤ db.pending + pairs.length →
        db4.txns = [] ∧ db4.pending = 0) ∧
      db4.pending < db.interval) := by
  refine ⟨?_, ?_, ?_, ?_⟩
  · -- setitem
    cases hsh : Bigdict.shard db.storage_version db.shard_level (Bigdict.encode_key k) with
    | error e =>
        simp only [Bigdict.setitem, hsh] at h1
        simp at h1
    | ok sh =>
        simp only [Bigdict.setitem, hsh] at h1
        rw [if_neg (by simp [Bigdict.getTxn, hro])] at h1
        rw [Bigdict.track_write_spec _ _ (by simp [Bigdict.getTxn, hro])] at h1
        simp only [Bigdict.getTxn] at h1
        by_cases hthr : db.interval ≤ db.pending + 1
        · rw [if_neg (by norm_num), if_pos (by simpa using hthr)] at h1
          have hdb1 := (Prod.mk.injEq _ _ _ _ ▸ h1).1
          subst hdb1
          simp [Bigdict.pendingAfter, hthr, hint]
        · rw [if_neg (by norm_num), if_neg (by simpa using hthr)] at h1
          have hdb1 := (Prod.mk.injEq _ _ _ _ ▸ h1).1
          subst hdb1
          simp [Bigdict.pendingAfter, hthr]
          omega
  · -- delitem
    cases hsh : Bigdict.shard db.storage_version db.shard_level (Bigdict.encode_key kd) with
    | error e =>
        simp only [Bigdict.delitem, hsh] at h2
        simp at h2
    | ok sh =>
        simp only [Bigdict.delitem, hsh] at h2
        rw [if_neg (by simp [Bigdict.getTxn, hro])] at h2
        by_cases hz : (Bigdict.alookup (Bigdict.encode_key kd)
            (Bigdict.applyOps (Bigdict.diskShard (Bigdict.getTxn db sh).disk sh)
              (Bigdict.txnOps (Bigdict.getTxn db sh).txns sh))).isSome
        · rw [if_pos hz] at h2
          rw [Bigdict.track_write_spec _ _ (by simp [Bigdict.getTxn, hro])] at h2
          simp only [Bigdict.getTxn] at h2
          by_cases hthr : db.interval ≤ db.pending + 1
          · rw [if_neg (by norm_num), if_pos (by simpa using hthr)] at h2
            have hdb2 := (Prod.mk.injEq _ _ _ _ ▸ h2).1
            subst hdb2
            simp [Bigdict.pendingAfter, hthr, hint]
          · rw [if_neg (by norm_num), if_neg (by simpa using hthr)] at h2
            have hdb2 := (Prod.mk.injEq _ _ _ _ ▸ h2).1
            subst hdb2
            simp [Bigdict.pendingAfter, hthr]
            omega
        · rw [if_neg hz] at h2
          simp at h2
  · -- pop
    simp only [Bigdict.pop] at h3
    rw [if_neg (by simp [hro])] at h3
    cases hsh : Bigdict.shard db.storage_version db.shard_level (Bigdict.encode_key kp) with
    | error e =>
        rw [hsh] at h3
        simp at h3
    | ok sh =>
        simp only [hsh] at h3
        have hview : Bigdict.applyOps
            (Bigdict.diskShard (Bigdict.getTxn db sh).disk sh)
            (Bigdict.txnOps (Bigdict.getTxn db sh).txns sh) =
            Bigdict.applyOps (Bigdict.diskShard db.disk sh)
              (Bigdict.txnOps db.txns sh) := by
          rw [Bigdict.txnOps_getTxn]
          rw [show (Bigdict.getTxn db sh).disk = Bigdict.envEnsure db.disk sh from rfl]
          rw [Bigdict.diskShard_envEnsure]
        have hpc : Bigdict.popCount db kp =
            if (Bigdict.alookup (Bigdict.encode_key kp)
              (Bigdict.applyOps (Bigdict.diskShard db.disk sh)
                (Bigdict.txnOps db.txns sh))).isSome then 1 else 0 := by
          simp [Bigdict.popCount, hsh]
        rw [hview] at h3
        cases hlk : Bigdict.alookup (Bigdict.encode_key kp)
            (Bigdict.applyOps (Bigdict.diskShard db.disk sh) (Bigdict.txnOps db.txns sh)) with
        | none =>
            simp only [hlk] at h3
            cases dflt with
            | none => simp at h3
            | some d =>
                simp only [] at h3
                have hdb3 := (Prod.mk.injEq _ _ _ _ ▸ h3).1
                subst hdb3
                simp [hpc, hlk, Bigdict.pendingAfter, Bigdict.getTxn]
                omega
        | some vv =>
            simp only [hlk] at h3
            rw [Bigdict.track_write_spec _ _ (by simp [Bigdict.getTxn, hro])] at h3
            simp only [Bigdict.getTxn] at h3
            by_cases hthr : db.interval ≤ db.pending + 1
            · rw [if_neg (by norm_num), if_pos (by simpa using hthr)] at h3
              cases hdv : Bigdict.decode_value vv with
              | none =>
                  simp only [hdv] at h3
                  simp at h3
              | some v2 =>
                  simp only [hdv] at h3
                  have hdb3 := (Prod.mk.injEq _ _ _ _ ▸ h3).1
                  subst hdb3
                  simp [hpc, hlk, Bigdict.pendingAfter, hthr, hint]
            · rw [if_neg (by norm_num), if_neg (by simpa using hthr)] at h3
              cases hdv : Bigdict.decode_value vv with
              | none =>
                  simp only [hdv] at h3
                  simp at h3
              | some v2 =>
                  simp only [hdv] at h3
                  have hdb3 := (Prod.mk.injEq _ _ _ _ ▸ h3).1
                  subst hdb3
                  simp [hpc, hlk, Bigdict.pendingAfter, hthr]
                  omega
  · -- update
    simp only [Bigdict.update] at h4
    rw [if_neg (by simp [hro])] at h4
    cases hsd : Bigdict.sharddataOf db.storage_version db.shard_level pairs with
    | error e =>
        rw [hsd] at h4
        simp at h4
    | ok sd =>
        simp only [hsd] at h4
        rw [Bigdict.sharddata_total _ _ _ _ hsd] at h4
        have hf := Bigdict.stage_fold_fields sd db
        rw [Bigdict.track_write_spec _ _ (by rw [hf.1]; exact hro)] at h4
        rw [hf.2.1, hf.2.2] at h4
        by_cases h0 : pairs.length < 1
        · rw [if_pos h0] at h4
          have hdb4 := (Prod.mk.injEq _ _ _ _ ▸ h4).1
          subst hdb4
          rw [hf.2.1]
          simp [Bigdict.pendingAfter, h0]
          omega
        · rw [if_neg h0] at h4
          by_cases hthr : db.interval ≤ db.pending + pairs.length
          · rw [if_pos hthr] at h4
            have hdb4 := (Prod.mk.injEq _ _ _ _ ▸ h4).1
            subst hdb4
            simp [Bigdict.pendingAfter, hthr, hint, h0]
          · rw [if_neg hthr] at h4
            have hdb4 := (Prod.mk.injEq _ _ _ _ ▸ h4).1
            subst hdb4
            simp [Bigdict.pendingAfter, hthr, h0]
            omega

/-- A read-write handle with one committed entry (key `b"a"`), no open
transactions, nothing pending, and a small commit interval. -/
def Bigdict.dbW5 : Bigdict.DB :=
  ⟨false, 2, 0, some [("0", [([97], [128, 5, 78, 46])])], true, [], 0, 3⟩

/-- Witness for C5: one put, one delete, one pop and a one-pair update on
a concrete handle each leave the counter at 1, below the interval 3. -/
theorem Bigdict.mutators_track_writes_witness :
    (Bigdict.dbW5.readonly = false ∧ 0 < Bigdict.dbW5.interval ∧
      Bigdict.dbW5.pending < Bigdict.dbW5.interval ∧
      Bigdict.setitem [98] .none Bigdict.dbW5 =
        ((Bigdict.setitem [98] .none Bigdict.dbW5).1, .ok ()) ∧
      Bigdict.delitem [97] Bigdict.dbW5 = ((Bigdict.delitem [97] Bigdict.dbW5).1, .ok ()) ∧
      Bigdict.pop [97] Option.none Bigdict.dbW5 =
        ((Bigdict.pop [97] Option.none Bigdict.dbW5).1, .ok Bigdict.PyVal.none) ∧
      Bigdict.update [([99], .none)] Bigdict.dbW5 =
        ((Bigdict.update [([99], .none)] Bigdict.dbW5).1, .ok ())) ∧
    (((Bigdict.setitem [98] .none Bigdict.dbW5).1.pending =
        Bigdict.pendingAfter Bigdict.dbW5 1 ∧
      (Bigdict.dbW5.interval ≤ Bigdict.dbW5.pending + 1 →
        (Bigdict.setitem [98] .none Bigdict.dbW5).1.txns = [] ∧
          (Bigdict.setitem [98] .none Bigdict.dbW5).1.pending = 0) ∧
      (Bigdict.setitem [98] .none Bigdict.dbW5).1.pending < Bigdict.dbW5.interval) ∧
    ((Bigdict.delitem [97] Bigdict.dbW5).1.pending = Bigdict.pendingAfter Bigdict.dbW5 1 ∧
      (Bigdict.dbW5.interval ≤ Bigdict.dbW5.pending + 1 →
        (Bigdict.delitem [97] Bigdict.dbW5).1.txns = [] ∧
          (Bigdict.delitem [97] Bigdict.dbW5).1.pending = 0) ∧
      (Bigdict.delitem [97] Bigdict.dbW5).1.pending < Bigdict.dbW5.interval) ∧
    ((Bigdict.pop [97] Option.none Bigdict.dbW5).1.pending =
        Bigdict.pendingAfter Bigdict.dbW5 (Bigdict.popCount Bigdict.dbW5 [97]) ∧
      (Bigdict.pop [97] Option.none Bigdict.dbW5).1.pending < Bigdict.dbW5.interval) ∧
    ((Bigdict.update [([99], .none)] Bigdict.dbW5).1.pending =
        Bigdict.pendingAfter Bigdict.dbW5 ([([99], Bigdict.PyVal.none)].length) ∧
      (1 ≤ [([99], Bigdict.PyVal.none)].length →
        Bigdict.dbW5.interval ≤ Bigdict.dbW5.pending + [([99], Bigdict.PyVal.none)].length →
        (Bigdict.update [([99], .none)] Bigdict.dbW5).1.txns = [] ∧
          (Bigdict.update [([99], .none)] Bigdict.dbW5).1.pending = 0) ∧
      (Bigdict.update [([99], .none)] Bigdict.dbW5).1.pending < Bigdict.dbW5.interval)) := by
  have h := Bigdict.mutators_track_writes Bigdict.dbW5 rfl (by decide) (by decide)
    [98] [97] [97] .none Option.none [([99], .none)]
    (Bigdict.setitem [98] .none Bigdict.dbW5).1 (Bigdict.delitem [97] Bigdict.dbW5).1
    (Bigdict.pop [97] Option.none Bigdict.dbW5).1
    (Bigdict.update [([99], .none)] Bigdict.dbW5).1
    Bigdict.PyVal.none rfl rfl rfl rfl
  exact ⟨⟨rfl, by decide, by decide, rfl, rfl, rfl, rfl⟩, h⟩

/-- The handle state right after `destroy` on `dbClean`: transactions
aborted, disk footprint removed, `info` attribute gone. -/
def Bigdict.dbDestroyed : Bigdict.DB :=
  ⟨false, 2, 0, Option.none, false, [], 0, 100000⟩

/-- The handle state after writing key `b"k"` on the destroyed handle:
`_env` has silently recreated `path/db/0` on disk and the put succeeded. -/
def Bigdict.dbRecreated : Bigdict.DB :=
  ⟨false, 2, 0, some [("0", [])], false, [("0", [.put [107] [128, 5, 78, 46]])], 1, 100000⟩

/-- C7 (failing input): `destroy()` removes the on-disk footprint and the
`info` attribute, but a subsequent `__setitem__` on the destroyed handle
does not fail — `_env`'s `os.makedirs(..., exist_ok=True)` silently
recreates the dataset directory, a fresh LMDB environment is opened
there, and the write is accepted.  The claim (backed by `destroy`'s own
docstring, "the object is no longer usable") requires every subsequent
operation to fail clearly; only operations that touch `self.info` (such
as `flush`) do. -/
theorem Bigdict.destroy_then_setitem_recreates :
    Bigdict.destroy Bigdict.dbClean = (Bigdict.dbDestroyed, .ok ()) ∧
    Bigdict.dbDestroyed.disk = Option.none ∧
    Bigdict.dbDestroyed.hasInfo = false ∧
    Bigdict.setitem [107] .none Bigdict.dbDestroyed = (Bigdict.dbRecreated, .ok ()) ∧
    Bigdict.dbRecreated.disk = some [("0", [])] ∧
    Bigdict.flush Bigdict.dbDestroyed =
      (Bigdict.dbDestroyed, .error (.attributeError "info")) := by
  refine ⟨rfl, rfl, rfl, rfl, rfl, rfl⟩

/-- C6: opening a dataset whose persisted `storage_version` is an
unsupported legacy format fails fatally at construction time, before any
data read (the same error results whatever is on disk, and no
environment is opened): version 0 — also the default for a missing
field — is always rejected with a message containing the migration
instruction ("use Bigdict <= 0.2.7 to migrate"), and version 1 with
shard level above 1 is rejected with an instruction to create new
datasets; the current version 2 passes the check.  The check is a plain
conditional on the metadata: deterministic, never retried, never
downgraded to a warning. -/
theorem Bigdict.open_rejects_legacy (info : Bigdict.Info)
    (disk : Option (List (String × Bigdict.ShardData))) (ro : Bool) :
    (info.storage_version.getD 0 = 0 →
      ∃ msg, Bigdict.bigdictInit info disk ro = .error msg ∧
        Bigdict.strContains msg "migrate" = true ∧
        (∀ disk2, Bigdict.bigdictInit info disk2 ro = .error msg)) ∧
    (info.storage_version.getD 0 = 1 → 1 < info.shard_level.getD 0 →
      ∃ msg, Bigdict.bigdictInit info disk ro = .error msg ∧
        Bigdict.strContains msg "new datasets" = true ∧
        (∀ disk2, Bigdict.bigdictInit info disk2 ro = .error msg)) ∧
    (info.storage_version.getD 0 = 2 →
      ∃ db, Bigdict.bigdictInit info disk ro = .ok db ∧ db.storage_version = 2) := by
  refine ⟨?_, ?_, ?_⟩
  · intro h0
    refine ⟨"Support for RocksDB storage is removed in version 0.2.8. Please use Bigdict <= 0.2.7 to migrate this old dataset to the new format.", ?_, by decide, ?_⟩
    · simp [Bigdict.bigdictInit, h0]
    · intro disk2
      simp [Bigdict.bigdictInit, h0]
  · intro h1 hsl
    refine ⟨"Storage version 1 is no longer supported. Please create new datasets to use a newer storage format.", ?_, by decide, ?_⟩
    · simp [Bigdict.bigdictInit, h1, hsl]
    · intro disk2
      simp [Bigdict.bigdictInit, h1, hsl]
  · intro h2
    refine ⟨⟨ro, 2, info.shard_level.getD 0, disk, true, [], 0, 100000⟩, ?_, rfl⟩
    simp [Bigdict.bigdictInit, h2]

/-- Witness for C6 at `storage_version = 0` (and the other branches at
versions 1 and 2). -/
theorem Bigdict.open_rejects_legacy_witness :
    ((⟨some 0, some 8, some 5⟩ : Bigdict.Info).storage_version.getD 0 = 0 ∧
      ∃ msg, Bigdict.bigdictInit ⟨some 0, some 8, some 5⟩ (some []) false = .error msg ∧
        Bigdict.strContains msg "migrate" = true) ∧
    ((⟨some 1, some 8, some 5⟩ : Bigdict.Info).storage_version.getD 0 = 1 ∧
      ∃ msg, Bigdict.bigdictInit ⟨some 1, some 8, some 5⟩ (some []) false = .error msg ∧
        Bigdict.strContains msg "new datasets" = true) ∧
    ((⟨some 2, some 8, some 5⟩ : Bigdict.Info).storage_version.getD 0 = 2 ∧
      ∃ db, Bigdict.bigdictInit ⟨some 2, some 8, some 5⟩ (some []) false = .ok db) := by
  have h0 := Bigdict.open_rejects_legacy ⟨some 0, some 8, some 5⟩ (some []) false
  have h1 := Bigdict.open_rejects_legacy ⟨some 1, some 8, some 5⟩ (some []) false
  have h2 := Bigdict.open_rejects_legacy ⟨some 2, some 8, some 5⟩ (some []) false
  refine ⟨⟨rfl, ?_⟩, ⟨rfl, ?_⟩, ⟨rfl, ?_⟩⟩
  · obtain ⟨msg, hm1, hm2, hm3⟩ := h0.1 (by decide)
    exact ⟨msg, hm1, hm2⟩
  · obtain ⟨msg, hm1, hm2, hm3⟩ := h1.2.1 (by decide) (by decide)
    exact ⟨msg, hm1, hm2⟩
  · obtain ⟨db, hm1, hm2⟩ := h2.2.2 (by decide)
    exact ⟨db, hm1⟩

/-- A list is a prefix of itself followed by anything. -/
theorem Bigdict.hasPrefixL_append (p t : List Char) : Bigdict.hasPrefixL p (p ++ t) = true := by
  induction p with
  | nil => rfl
  | cons a as ih => simp [Bigdict.hasPrefixL, ih]

/-- A pattern occurs in any list that ends with it. -/
theorem Bigdict.containsL_append_self (s p : List Char) : Bigdict.containsL p (s ++ p) = true := by
  induction s with
  | nil =>
    cases p with
    | nil => rfl
    | cons b bs =>
      have h := Bigdict.hasPrefixL_append (b :: bs) []
      simp only [List.append_nil] at h
      simp [Bigdict.containsL, h]
  | cons c s ih =>
    simp [Bigdict.containsL, List.append_eq, ih]

/-- A string contains its own suffix. -/
theorem Bigdict.strContains_suffix (s p : String) : Bigdict.strContains (s ++ p) p = true := by
  simp only [Bigdict.strContains, String.toList, String.data_append]
  exact Bigdict.containsL_append_self s.data p.data

/-- The entry-count mismatch message names the failing shard in the
form written at line 876. -/
theorem Bigdict.strContains_mismatch (sh : String) (n nn : Nat) :
    Bigdict.strContains (Bigdict.compactMsg (Bigdict.CompErr.mismatch sh n nn))
      ("for shard \"" ++ sh ++ "\"") = true := by
  simp only [Bigdict.compactMsg, Bigdict.strContains, String.toList, String.data_append]
  have h := Bigdict.containsL_append_self
    ("expecting ".data ++ (toString n).data ++ " entries but got ".data ++ (toString nn).data ++ [' '])
    ("for shard \"".data ++ sh.data ++ "\"".data)
  simpa [List.append_assoc] using h

/-- Renaming the compacted copies over the originals preserves the
directory names. -/
theorem Bigdict.compact_map_fst (eng : Bigdict.Engine) (l : List (String × Bigdict.Dir)) :
    (l.map (fun p => (p.1, eng.copyDir p.2))).map Prod.fst = l.map Prod.fst := by
  induction l with
  | nil => rfl
  | cons p l ih => simp [ih]

/-- C3 (amended): during compact, the first failing shard stops the
run: shards compacted before it stay compacted under their original
names, the failing shard and all later shards keep their original
directories bit-identically, no temporary `-new` directory remains in
the listing, and a fatal error is raised; when the failure is the
entry-count check, the error message names the failing shard.  (The
original claim also asserted that an engine error raised while opening
the copy names the failing shard; the code re-raises the engine's own
exception unchanged, so that part holds only if the engine's message
happens to mention the shard.) -/
theorem Bigdict.compact_failure_isolated (eng : Bigdict.Engine)
    (pre : List (String × Bigdict.Dir)) (sh : String) (d : Bigdict.Dir)
    (post : List (String × Bigdict.Dir))
    (hpre : ∀ p ∈ pre, eng.openCopyErr p.1 = Option.none ∧ (eng.copyDir p.2).entries = p.2.entries)
    (hfail : eng.openCopyErr sh ≠ Option.none ∨ (eng.copyDir d).entries ≠ d.entries) :
    ∃ e, Bigdict.compactShards eng (pre ++ (sh, d) :: post) =
        (pre.map (fun p => (p.1, eng.copyDir p.2)) ++ (sh, d) :: post, some e) ∧
      (pre.map (fun p => (p.1, eng.copyDir p.2)) ++ (sh, d) :: post).map Prod.fst =
        (pre ++ (sh, d) :: post).map Prod.fst ∧
      (eng.openCopyErr sh = Option.none →
        Bigdict.strContains (Bigdict.compactMsg e) ("for shard \"" ++ sh ++ "\"") = true) := by
  have hnames : (pre.map (fun p => (p.1, eng.copyDir p.2)) ++ (sh, d) :: post).map Prod.fst =
      (pre ++ (sh, d) :: post).map Prod.fst := by
    simp [Bigdict.compact_map_fst]
  suffices h : ∃ e, Bigdict.compactShards eng (pre ++ (sh, d) :: post) =
      (pre.map (fun p => (p.1, eng.copyDir p.2)) ++ (sh, d) :: post, some e) ∧
      (eng.openCopyErr sh = Option.none →
        Bigdict.strContains (Bigdict.compactMsg e) ("for shard \"" ++ sh ++ "\"") = true) by
    obtain ⟨e, h1, h2⟩ := h
    exact ⟨e, h1, hnames, h2⟩
  clear hnames
  induction pre with
  | nil =>
    cases hop : eng.openCopyErr sh with
    | some msg =>
      refine ⟨Bigdict.CompErr.engine msg, ?_, ?_⟩
      · simp [Bigdict.compactShards, hop]
      · intro h
        exact absurd h (by simp)
    | none =>
      have hne : (eng.copyDir d).entries ≠ d.entries := by
        rcases hfail with h | h
        · exact absurd hop h
        · exact h
      refine ⟨Bigdict.CompErr.mismatch sh d.entries (eng.copyDir d).entries, ?_, ?_⟩
      · simp [Bigdict.compactShards, hop, hne]
      · intro _
        exact Bigdict.strContains_mismatch sh d.entries (eng.copyDir d).entries
  | cons p pre ih =>
    obtain ⟨hopen, hent⟩ := hpre p (by simp)
    have hpre2 : ∀ q ∈ pre, eng.openCopyErr q.1 = Option.none ∧
        (eng.copyDir q.2).entries = q.2.entries := fun q hq => hpre q (by simp [hq])
    obtain ⟨e, he1, he2⟩ := ih hpre2
    refine ⟨e, ?_, he2⟩
    obtain ⟨shp, dp⟩ := p
    simp only at hopen hent
    simp [Bigdict.compactShards, hopen, hent, he1]

/-- Witness for C3 at a two-shard listing whose second shard fails the
entry-count check: the first shard stays compacted, the second keeps
its original directory, and the error names shard 1. -/
theorem Bigdict.compact_failure_isolated_witness :
    ((∀ p ∈ [("0", (⟨3, 1⟩ : Bigdict.Dir))],
        Bigdict.engW.openCopyErr p.1 = Option.none ∧
          (Bigdict.engW.copyDir p.2).entries = p.2.entries) ∧
      (Bigdict.engW.openCopyErr "1" ≠ Option.none ∨
        (Bigdict.engW.copyDir ⟨5, 9⟩).entries ≠ (⟨5, 9⟩ : Bigdict.Dir).entries)) ∧
    (∃ e, Bigdict.compactShards Bigdict.engW
          ([("0", (⟨3, 1⟩ : Bigdict.Dir))] ++ ("1", (⟨5, 9⟩ : Bigdict.Dir)) :: []) =
        ([("0", (⟨3, 1⟩ : Bigdict.Dir))].map (fun p => (p.1, Bigdict.engW.copyDir p.2)) ++
          ("1", (⟨5, 9⟩ : Bigdict.Dir)) :: [], some e) ∧
      ([("0", (⟨3, 1⟩ : Bigdict.Dir))].map (fun p => (p.1, Bigdict.engW.copyDir p.2)) ++
          ("1", (⟨5, 9⟩ : Bigdict.Dir)) :: []).map Prod.fst =
        ([("0", (⟨3, 1⟩ : Bigdict.Dir))] ++ ("1", (⟨5, 9⟩ : Bigdict.Dir)) :: []).map Prod.fst ∧
      (Bigdict.engW.openCopyErr "1" = Option.none →
        Bigdict.strContains (Bigdict.compactMsg e) ("for shard \"" ++ "1" ++ "\"") = true)) := by
  refine ⟨⟨by decide, by decide⟩, ?_⟩
  exact Bigdict.compact_failure_isolated Bigdict.engW [("0", (⟨3, 1⟩ : Bigdict.Dir))] "1"
    (⟨5, 9⟩ : Bigdict.Dir) [] (by decide) (by decide)

/-- C3 counterexample to the unamended wording: when the engine fails
while opening the compacted copy, the code re-raises the engine's own
exception after removing the temporary directory, and nothing in the
code adds the shard name to it — here the escaping error's message does
not mention the failing shard `0` at all. -/
theorem Bigdict.compact_engine_error_unnamed :
    Bigdict.compactShards Bigdict.engBad [("0", ⟨5, 7⟩)] =
      ([("0", ⟨5, 7⟩)], some (Bigdict.CompErr.engine "engine failure")) ∧
    Bigdict.strContains (Bigdict.compactMsg (Bigdict.CompErr.engine "engine failure")) "0" = false := by
  exact ⟨rfl, by decide⟩

/-- Insert-or-replace never empties an association list. -/
theorem Bigdict.aset_ne_nil {α β : Type} [DecidableEq α] (k : α) (v : β)
    (l : List (α × β)) : Bigdict.aset k v l ≠ [] := by
  cases l with
  | nil => simp [Bigdict.aset]
  | cons p rest =>
    obtain ⟨a, b⟩ := p
    by_cases h : a = k <;> simp [Bigdict.aset, h]

/-- `_env` never leaves the `db` directory listing empty: it creates the
shard directory when missing. -/
theorem Bigdict.envEnsure_ne_empty (d : Option (List (String × Bigdict.ShardData)))
    (sh : String) : Bigdict.envEnsure d sh ≠ some [] := by
  cases d with
  | none => simp [Bigdict.envEnsure]
  | some m =>
    cases m with
    | nil => simp [Bigdict.envEnsure, Bigdict.alookup]
    | cons p rest =>
      simp only [Bigdict.envEnsure, ne_eq, Option.some.injEq]
      split <;> simp

/-- Writing a shard's contents never empties the directory listing. -/
theorem Bigdict.diskSetShard_ne_empty (d : Option (List (String × Bigdict.ShardData)))
    (sh : String) (c : Bigdict.ShardData) : Bigdict.diskSetShard d sh c ≠ some [] := by
  cases d with
  | none => simp [Bigdict.diskSetShard]
  | some m => simp [Bigdict.diskSetShard, Bigdict.aset_ne_nil]

/-- Committing transactions never empties a non-empty directory
listing. -/
theorem Bigdict.commitTxns_ne_empty (txns : List (String × List Bigdict.TxnOp)) :
    ∀ d, d ≠ some [] → Bigdict.commitTxns d txns ≠ some [] := by
  induction txns with
  | nil => intro d hd; exact hd
  | cons p rest ih =>
    intro d hd
    exact ih _ (Bigdict.diskSetShard_ne_empty _ _ _)

/-- Transport of the non-empty-listing property along a pair equation. -/
theorem Bigdict.fst_disk_of_eq {α : Type} {p : Bigdict.DB × α} {db2 : Bigdict.DB}
    {r : α} (h : p = (db2, r)) (hp : p.1.disk ≠ some []) : db2.disk ≠ some [] := by
  rw [h] at hp
  exact hp

/-- `commit` never empties a non-empty directory listing. -/
theorem Bigdict.commit_disk (db : Bigdict.DB) (hd : db.disk ≠ some []) :
    (Bigdict.commit db).1.disk ≠ some [] := by
  unfold Bigdict.commit
  split
  · exact hd
  · exact Bigdict.commitTxns_ne_empty db.txns db.disk hd

/-- `_track_write` never empties a non-empty directory listing. -/
theorem Bigdict.track_write_disk (n : Nat) (db : Bigdict.DB) (hd : db.disk ≠ some []) :
    (Bigdict.track_write n db).1.disk ≠ some [] := by
  unfold Bigdict.track_write
  split
  · exact hd
  · dsimp only
    split
    · exact Bigdict.commit_disk _ hd
    · exact hd

/-- `flush` never empties a non-empty directory listing. -/
theorem Bigdict.flush_disk (db : Bigdict.DB) (hd : db.disk ≠ some []) :
    (Bigdict.flush db).1.disk ≠ some [] := by
  have h := Bigdict.commit_disk db hd
  rcases hc : Bigdict.commit db with ⟨db2, r⟩
  have h2 := Bigdict.fst_disk_of_eq hc h
  unfold Bigdict.flush
  rw [hc]
  cases r with
  | error e => exact h2
  | ok u => by_cases hi : db2.hasInfo = true <;> simp only [hi] <;> simp <;> exact h2

/-- `__setitem__` never empties a non-empty directory listing. -/
theorem Bigdict.setitem_disk (k : List Nat) (v : Bigdict.PyVal) (db : Bigdict.DB)
    (hd : db.disk ≠ some []) : (Bigdict.setitem k v db).1.disk ≠ some [] := by
  simp only [Bigdict.setitem]
  cases hsh : Bigdict.shard db.storage_version db.shard_level (Bigdict.encode_key k) with
  | error e => simpa [hsh] using hd
  | ok sh =>
    simp only [hsh]
    split
    · exact Bigdict.envEnsure_ne_empty db.disk sh
    · exact Bigdict.track_write_disk 1 _ (Bigdict.envEnsure_ne_empty db.disk sh)

/-- `__getitem__` never empties a non-empty directory listing. -/
theorem Bigdict.getitem_disk (k : List Nat) (db : Bigdict.DB)
    (hd : db.disk ≠ some []) : (Bigdict.getitem k db).1.disk ≠ some [] := by
  simp only [Bigdict.getitem]
  cases hsh : Bigdict.shard db.storage_version db.shard_level (Bigdict.encode_key k) with
  | error e => simpa [hsh] using hd
  | ok sh =>
    simp only [hsh]
    split
    · split
      · split <;> exact Bigdict.envEnsure_ne_empty db.disk sh
      · exact Bigdict.envEnsure_ne_empty db.disk sh
    · split
      · split <;> exact Bigdict.envEnsure_ne_empty db.disk sh
      · exact Bigdict.envEnsure_ne_empty db.disk sh

/-- `get` never empties a non-empty directory listing. -/
theorem Bigdict.get_disk (k : List Nat) (dflt : Bigdict.PyVal) (db : Bigdict.DB)
    (hd : db.disk ≠ some []) : (Bigdict.get k dflt db).1.disk ≠ some [] := by
  have h := Bigdict.getitem_disk k db hd
  rcases hg : Bigdict.getitem k db with ⟨db2, r⟩
  have h2 := Bigdict.fst_disk_of_eq hg h
  unfold Bigdict.get
  rw [hg]
  cases r with
  | ok v => exact h2
  | error e => cases e <;> exact h2

/-- `__delitem__` never empties a non-empty directory listing. -/
theorem Bigdict.delitem_disk (k : List Nat) (db : Bigdict.DB)
    (hd : db.disk ≠ some []) : (Bigdict.delitem k db).1.disk ≠ some [] := by
  simp only [Bigdict.delitem]
  cases hsh : Bigdict.shard db.storage_version db.shard_level (Bigdict.encode_key k) with
  | error e => simpa [hsh] using hd
  | ok sh =>
    simp only [hsh]
    split
    · exact Bigdict.envEnsure_ne_empty db.disk sh
    · split
      · exact Bigdict.track_write_disk 1 _ (Bigdict.envEnsure_ne_empty db.disk sh)
      · exact Bigdict.envEnsure_ne_empty db.disk sh

/-- `pop` never empties a non-empty directory listing. -/
theorem Bigdict.pop_disk (k : List Nat) (dflt : Option Bigdict.PyVal) (db : Bigdict.DB)
    (hd : db.disk ≠ some []) : (Bigdict.pop k dflt db).1.disk ≠ some [] := by
  simp only [Bigdict.pop]
  split
  · exact hd
  · cases hsh : Bigdict.shard db.storage_version db.shard_level (Bigdict.encode_key k) with
    | error e => simpa [hsh] using hd
    | ok sh =>
      simp only [hsh]
      split
      · split
        · rename_i db4 e heq
          exact Bigdict.fst_disk_of_eq heq
            (Bigdict.track_write_disk 1 _ (Bigdict.envEnsure_ne_empty db.disk sh))
        · rename_i db4 u heq
          have h4 := Bigdict.fst_disk_of_eq heq
            (Bigdict.track_write_disk 1 _ (Bigdict.envEnsure_ne_empty db.disk sh))
          split <;> exact h4
      · split <;> exact Bigdict.envEnsure_ne_empty db.disk sh

/-- `setdefault` never empties a non-empty directory listing. -/
theorem Bigdict.setdefault_disk (k : List Nat) (v : Bigdict.PyVal) (db : Bigdict.DB)
    (hd : db.disk ≠ some []) : (Bigdict.setdefault k v db).1.disk ≠ some [] := by
  simp only [Bigdict.setdefault]
  split
  · exact hd
  · have hg := Bigdict.getitem_disk k db hd
    rcases hG : Bigdict.getitem k db with ⟨db2, r⟩
    have h2 := Bigdict.fst_disk_of_eq hG hg
    cases r with
    | ok val => exact h2
    | error e =>
      cases e with
      | keyError kk =>
        have hs := Bigdict.setitem_disk k v db2 h2
        rcases hS : Bigdict.setitem k v db2 with ⟨db3, r2⟩
        have h3 := Bigdict.fst_disk_of_eq hS hs
        cases r2 with
        | ok u => simpa [hS] using h3
        | error e2 => simpa [hS] using h3
      | readonly m => exact h2
      | valueError m => exact h2
      | notImplementedError => exact h2
      | attributeError m => exact h2
      | unpicklingError => exact h2

/-- Staging update batches never empties a non-empty directory
listing. -/
theorem Bigdict.stage_fold_disk (sd : List (String × List (List Nat × List Nat))) :
    ∀ db : Bigdict.DB, db.disk ≠ some [] →
    (sd.foldl Bigdict.stageShard db).disk ≠ some [] := by
  induction sd with
  | nil => intro db h; exact h
  | cons p rest ih =>
    intro db h
    rw [List.foldl_cons]
    exact ih _ (Bigdict.envEnsure_ne_empty db.disk p.1)

/-- `update` never empties a non-empty directory listing. -/
theorem Bigdict.update_disk (pairs : List (List Nat × Bigdict.PyVal)) (db : Bigdict.DB)
    (hd : db.disk ≠ some []) : (Bigdict.update pairs db).1.disk ≠ some [] := by
  simp only [Bigdict.update]
  split
  · exact hd
  · cases hsd : Bigdict.sharddataOf db.storage_version db.shard_level pairs with
    | error e => simpa [hsd] using hd
    | ok sd =>
      simp only [hsd]
      exact Bigdict.track_write_disk _ _ (Bigdict.stage_fold_disk sd db hd)

/-- `get_buffer` never empties a non-empty directory listing. -/
theorem Bigdict.get_buffer_disk (k : List Nat) (dflt : Option (List Nat))
    (db : Bigdict.DB) (hd : db.disk ≠ some []) :
    (Bigdict.get_buffer k dflt db).1.disk ≠ some [] := by
  have hc : (if 0 < db.pending then Bigdict.commit db else (db, Except.ok ())).1.disk ≠
      some [] := by
    split
    · exact Bigdict.commit_disk db hd
    · exact hd
  rcases hx : (if 0 < db.pending then Bigdict.commit db else (db, Except.ok ())) with ⟨db2, r⟩
  have h2 := Bigdict.fst_disk_of_eq hx hc
  simp only [Bigdict.get_buffer]
  rw [hx]
  cases r with
  | error e => exact h2
  | ok u =>
    cases hsh : Bigdict.shard db2.storage_version db2.shard_level (Bigdict.encode_key k) with
    | error e => simpa [hsh] using h2
    | ok sh =>
      simp only [hsh]
      split
      · exact Bigdict.envEnsure_ne_empty db2.disk sh
      · split <;> exact Bigdict.envEnsure_ne_empty db2.disk sh

/-- `__contains__` never empties a non-empty directory listing. -/
theorem Bigdict.contains_disk (k : List Nat) (db : Bigdict.DB)
    (hd : db.disk ≠ some []) : (Bigdict.contains k db).1.disk ≠ some [] := by
  simp only [Bigdict.contains]
  cases hsh : Bigdict.shard db.storage_version db.shard_level (Bigdict.encode_key k) with
  | error e => simpa [hsh] using hd
  | ok sh =>
    simp only [hsh]
    split <;> exact Bigdict.envEnsure_ne_empty db.disk sh

/-- The per-shard fold of `__len__` never empties a non-empty directory
listing. -/
theorem Bigdict.length_fold_disk (shs : List String) :
    ∀ acc : Bigdict.DB × Except Bigdict.PyErr Nat, acc.1.disk ≠ some [] →
    (shs.foldl
      (fun r sh =>
        match r with
        | (db, .error e) => (db, .error e)
        | (db, .ok n) =>
            if db.readonly then
              let db2 := { db with disk := Bigdict.envEnsure db.disk sh }
              (db2, .ok (n + (Bigdict.diskShard db2.disk sh).length))
            else
              let db2 := Bigdict.getTxn db sh
              (db2, .ok (n + (Bigdict.applyOps (Bigdict.diskShard db2.disk sh)
                (Bigdict.txnOps db2.txns sh)).length)))
      acc).1.disk ≠ some [] := by
  induction shs with
  | nil => intro acc h; exact h
  | cons sh rest ih =>
    intro acc h
    rw [List.foldl_cons]
    apply ih
    rcases acc with ⟨db, r⟩
    cases r with
    | error e => exact h
    | ok n =>
      split
      · rename_i heq
        simp at heq
      · split <;> exact Bigdict.envEnsure_ne_empty _ sh

/-- `__len__` never empties a non-empty directory listing. -/
theorem Bigdict.lengthOp_disk (db : Bigdict.DB) (hd : db.disk ≠ some []) :
    (Bigdict.lengthOp db).1.disk ≠ some [] :=
  Bigdict.length_fold_disk (Bigdict.shardsList db) (db, .ok 0) hd

/-- The early-exit scan of `__bool__` never empties a non-empty
directory listing. -/
theorem Bigdict.boolOp_go_disk (shs : List String) :
    ∀ db : Bigdict.DB, db.disk ≠ some [] →
    (Bigdict.boolOp.go shs db).1.disk ≠ some [] := by
  induction shs with
  | nil => intro db h; exact h
  | cons sh rest ih =>
    intro db h
    simp only [Bigdict.boolOp.go]
    split
    · split
      · exact Bigdict.envEnsure_ne_empty db.disk sh
      · exact ih _ (Bigdict.envEnsure_ne_empty db.disk sh)
    · split
      · exact Bigdict.envEnsure_ne_empty db.disk sh
      · exact ih _ (Bigdict.envEnsure_ne_empty db.disk sh)

/-- `__bool__` never empties a non-empty directory listing. -/
theorem Bigdict.boolOp_disk (db : Bigdict.DB) (hd : db.disk ≠ some []) :
    (Bigdict.boolOp db).1.disk ≠ some [] :=
  Bigdict.boolOp_go_disk (Bigdict.shardsList db) db hd

/-- Starting `keys()` never empties a non-empty directory listing. -/
theorem Bigdict.keysBegin_disk (db : Bigdict.DB) (hd : db.disk ≠ some []) :
    (Bigdict.keysBegin db).1.disk ≠ some [] := by
  simp only [Bigdict.keysBegin]
  split
  · exact Bigdict.commit_disk db hd
  · exact hd

/-- Starting `values()` never empties a non-empty directory listing. -/
theorem Bigdict.valuesBegin_disk (db : Bigdict.DB) (hd : db.disk ≠ some []) :
    (Bigdict.valuesBegin db).1.disk ≠ some [] := by
  simp only [Bigdict.valuesBegin]
  split
  · exact Bigdict.commit_disk db hd
  · exact hd

/-- Starting `items()` never empties a non-empty directory listing. -/
theorem Bigdict.itemsBegin_disk (db : Bigdict.DB) (hd : db.disk ≠ some []) :
    (Bigdict.itemsBegin db).1.disk ≠ some [] := by
  simp only [Bigdict.itemsBegin]
  split
  · exact Bigdict.commit_disk db hd
  · exact hd

/-- `destroy` removes the directory listing entirely; it never leaves it
present but empty. -/
theorem Bigdict.destroy_disk (db : Bigdict.DB) (hd : db.disk ≠ some []) :
    (Bigdict.destroy db).1.disk ≠ some [] := by
  simp only [Bigdict.destroy]
  split
  · exact hd
  · simp

/-- `_close` never empties a non-empty directory listing. -/
theorem Bigdict.closeOp_disk (db : Bigdict.DB) (hd : db.disk ≠ some []) :
    (Bigdict.closeOp db).1.disk ≠ some [] := by
  simp only [Bigdict.closeOp]
  split
  · exact hd
  · exact Bigdict.commitTxns_ne_empty db.txns db.disk hd

/-- `compact` never empties a non-empty directory listing. -/
theorem Bigdict.compactL_disk (db : Bigdict.DB) (hd : db.disk ≠ some []) :
    (Bigdict.compactL db).1.disk ≠ some [] := by
  have h := Bigdict.flush_disk db hd
  rcases hf : Bigdict.flush db with ⟨db2, r⟩
  have h2 := Bigdict.fst_disk_of_eq hf h
  simp only [Bigdict.compactL]
  rw [hf]
  cases r with
  | error e => exact h2
  | ok u => exact h2

/-- No public operation can shrink a non-empty dataset directory listing
to an empty one: every operation either keeps every shard directory
(possibly creating more), rewrites shard contents in place, or removes
the whole dataset. -/
theorem Bigdict.runOp_disk (o : Bigdict.Op) (db : Bigdict.DB)
    (hd : db.disk ≠ some []) : (Bigdict.runOp o db).1.disk ≠ some [] := by
  cases o with
  | setitem k v => exact Bigdict.setitem_disk k v db hd
  | delitem k => exact Bigdict.delitem_disk k db hd
  | pop k d => exact Bigdict.pop_disk k d db hd
  | setdefault k v => exact Bigdict.setdefault_disk k v db hd
  | update pairs => exact Bigdict.update_disk pairs db hd
  | getitem k => exact Bigdict.getitem_disk k db hd
  | get k d => exact Bigdict.get_disk k d db hd
  | getBuffer k d => exact Bigdict.get_buffer_disk k d db hd
  | contains k => exact Bigdict.contains_disk k db hd
  | length => exact Bigdict.lengthOp_disk db hd
  | boolOp => exact Bigdict.boolOp_disk db hd
  | keysBegin => exact Bigdict.keysBegin_disk db hd
  | valuesBegin => exact Bigdict.valuesBegin_disk db hd
  | itemsBegin => exact Bigdict.itemsBegin_disk db hd
  | commit => exact Bigdict.commit_disk db hd
  | flush => exact Bigdict.flush_disk db hd
  | destroy => exact Bigdict.destroy_disk db hd
  | clear => exact hd
  | compact => exact Bigdict.compactL_disk db hd
  | close => exact Bigdict.closeOp_disk db hd
  | asReadonly => exact hd

/-- C2 counterexample to the unamended wording: no public operation of
the handle is a rollback.  After one write on a fresh read-write handle
whose commit interval makes the write persist at once, a rollback would
have to restore the persisted dataset to its prior (empty) listing while
succeeding and leaving no open transaction — but no operation can shrink
the directory listing back to empty, so no operation satisfies the
rollback contract.  (In the code the only aborts are the read-only path
of `_close` and `destroy`, which removes the dataset wholesale.) -/
theorem Bigdict.no_rollback : ¬ ∃ o : Bigdict.Op, Bigdict.IsRollback o := by
  rintro ⟨o, ho⟩
  obtain ⟨db2, hrun, htx, hdisk⟩ :=
    ho Bigdict.dbSeq0 [([97], Bigdict.PyVal.none)] Bigdict.dbSeq1 rfl
      (by simp [Bigdict.dbSeq0]) rfl rfl
  have h := Bigdict.runOp_disk o Bigdict.dbSeq1 (by simp [Bigdict.dbSeq1])
  rw [hrun] at h
  exact h (by show db2.disk = some []; rw [hdisk]; rfl)

/-- Lookup after insert-or-replace at the written key. -/
theorem Bigdict.alookup_aset_self {α β : Type} [DecidableEq α] (k : α) (v : β)
    (l : List (α × β)) : Bigdict.alookup k (Bigdict.aset k v l) = some v := by
  induction l with
  | nil => simp [Bigdict.aset, Bigdict.alookup]
  | cons p rest ih =>
    obtain ⟨a, b⟩ := p
    by_cases h : a = k
    · simp [Bigdict.aset, Bigdict.alookup, h]
    · simp [Bigdict.aset, Bigdict.alookup, h, ih]

/-- Lookup after insert-or-replace at another key. -/
theorem Bigdict.alookup_aset_ne {α β : Type} [DecidableEq α] {k k2 : α} (v : β)
    (l : List (α × β)) (h : k2 ≠ k) :
    Bigdict.alookup k2 (Bigdict.aset k v l) = Bigdict.alookup k2 l := by
  induction l with
  | nil => simp [Bigdict.aset, Bigdict.alookup, Ne.symm h]
  | cons p rest ih =>
    obtain ⟨a, b⟩ := p
    by_cases ha : a = k
    · subst ha
      simp [Bigdict.aset, Bigdict.alookup, Ne.symm h]
    · simp [Bigdict.aset, Bigdict.alookup, ha, ih]

/-- A key that does not look up is not among the keys. -/
theorem Bigdict.alookup_none_not_mem {α β : Type} [DecidableEq α] {k : α}
    {l : List (α × β)} (h : Bigdict.alookup k l = Option.none) :
    k ∉ l.map Prod.fst := by
  induction l with
  | nil => simp
  | cons p rest ih =>
    obtain ⟨a, b⟩ := p
    simp only [Bigdict.alookup] at h
    by_cases ha : a = k
    · rw [if_pos ha] at h
      exact absurd h (by simp)
    · rw [if_neg ha] at h
      simp only [List.map_cons, List.mem_cons]
      rintro (h1 | h1)
      · exact ha h1.symm
      · exact ih h h1

/-- The keys after insert-or-replace. -/
theorem Bigdict.mem_map_fst_aset {α β : Type} [DecidableEq α] (k x : α) (v : β)
    (l : List (α × β)) :
    x ∈ (Bigdict.aset k v l).map Prod.fst ↔ x = k ∨ x ∈ l.map Prod.fst := by
  induction l with
  | nil => simp [Bigdict.aset]
  | cons p rest ih =>
    obtain ⟨a, b⟩ := p
    by_cases ha : a = k
    · subst ha
      simp [Bigdict.aset]
    · simp [Bigdict.aset, ha, List.mem_cons, ih]
      tauto

/-- Insert-or-replace keeps the keys duplicate-free. -/
theorem Bigdict.nodup_map_fst_aset {α β : Type} [DecidableEq α] (k : α) (v : β)
    (l : List (α × β)) (h : (l.map Prod.fst).Nodup) :
    ((Bigdict.aset k v l).map Prod.fst).Nodup := by
  induction l with
  | nil => simp [Bigdict.aset]
  | cons p rest ih =>
    obtain ⟨a, b⟩ := p
    simp only [List.map_cons, List.nodup_cons] at h
    by_cases ha : a = k
    · subst ha
      rw [show Bigdict.aset a v ((a, b) :: rest) = (a, v) :: rest from by
        simp [Bigdict.aset]]
      simpa using h
    · simp only [Bigdict.aset, if_neg ha, List.map_cons, List.nodup_cons]
      refine ⟨?_, ih h.2⟩
      rw [Bigdict.mem_map_fst_aset]
      rintro (h1 | h1)
      · exact ha h1
      · exact h.1 h1

/-- Staging one more operation appends it to the shard's own list. -/
theorem Bigdict.txnOps_txnAppend_self (txns : List (String × List Bigdict.TxnOp))
    (sh : String) (op : Bigdict.TxnOp) :
    Bigdict.txnOps (Bigdict.txnAppend txns sh op) sh = Bigdict.txnOps txns sh ++ [op] := by
  unfold Bigdict.txnAppend Bigdict.txnOps
  rw [Bigdict.alookup_aset_self]
  rfl

/-- Staging on one shard leaves other shards' staged operations alone. -/
theorem Bigdict.txnOps_txnAppend_ne (txns : List (String × List Bigdict.TxnOp))
    (sh sh2 : String) (op : Bigdict.TxnOp) (h : sh2 ≠ sh) :
    Bigdict.txnOps (Bigdict.txnAppend txns sh op) sh2 = Bigdict.txnOps txns sh2 := by
  unfold Bigdict.txnAppend Bigdict.txnOps
  rw [Bigdict.alookup_aset_ne _ _ h]

/-- Applying one more staged operation. -/
theorem Bigdict.applyOps_append (m : Bigdict.ShardData) (ops : List Bigdict.TxnOp)
    (op : Bigdict.TxnOp) :
    Bigdict.applyOps m (ops ++ [op]) = Bigdict.applyTxnOp (Bigdict.applyOps m ops) op := by
  unfold Bigdict.applyOps
  rw [List.foldl_append]
  rfl

/-- Committing transactions keeps the directory listing present. -/
theorem Bigdict.commitTxns_isSome (txns : List (String × List Bigdict.TxnOp)) :
    ∀ m, ∃ m2, Bigdict.commitTxns (some m) txns = some m2 := by
  induction txns with
  | nil => intro m; exact ⟨m, rfl⟩
  | cons p rest ih => intro m; exact ih _

/-- Reading a shard just written. -/
theorem Bigdict.diskShard_diskSetShard_self (m : List (String × Bigdict.ShardData))
    (sh : String) (c : Bigdict.ShardData) :
    Bigdict.diskShard (Bigdict.diskSetShard (some m) sh c) sh = c := by
  simp [Bigdict.diskSetShard, Bigdict.diskShard, Bigdict.alookup_aset_self]

/-- Reading another shard after a write. -/
theorem Bigdict.diskShard_diskSetShard_ne (m : List (String × Bigdict.ShardData))
    (sh sh2 : String) (c : Bigdict.ShardData) (h : sh2 ≠ sh) :
    Bigdict.diskShard (Bigdict.diskSetShard (some m) sh c) sh2 =
      Bigdict.diskShard (some m) sh2 := by
  simp [Bigdict.diskSetShard, Bigdict.diskShard, Bigdict.alookup_aset_ne _ _ h]

/-- Committing transactions of other shards leaves a shard's committed
contents alone. -/
theorem Bigdict.diskShard_commitTxns_not_mem (txns : List (String × List Bigdict.TxnOp)) :
    ∀ (m : List (String × Bigdict.ShardData)) (sh : String), sh ∉ txns.map Prod.fst →
    Bigdict.diskShard (Bigdict.commitTxns (some m) txns) sh =
      Bigdict.diskShard (some m) sh := by
  induction txns with
  | nil => intro m sh h; rfl
  | cons p rest ih =>
    intro m sh h
    simp only [List.map_cons, List.mem_cons] at h
    push_neg at h
    obtain ⟨a, ops⟩ := p
    have h1 : Bigdict.commitTxns (some m) ((a, ops) :: rest) =
        Bigdict.commitTxns
          (some (Bigdict.aset a (Bigdict.applyOps (Bigdict.diskShard (some m) a) ops) m))
          rest := rfl
    rw [h1, ih _ _ h.2]
    exact Bigdict.diskShard_diskSetShard_ne m a sh _ h.1

/-- Committing merges each shard's staged operations into its committed
contents (transactions are registered at most once per shard). -/
theorem Bigdict.diskShard_commitTxns (txns : List (String × List Bigdict.TxnOp)) :
    ∀ (m : List (String × Bigdict.ShardData)) (sh : String), (txns.map Prod.fst).Nodup →
    Bigdict.diskShard (Bigdict.commitTxns (some m) txns) sh =
      Bigdict.applyOps (Bigdict.diskShard (some m) sh) (Bigdict.txnOps txns sh) := by
  induction txns with
  | nil => intro m sh h; rfl
  | cons p rest ih =>
    intro m sh h
    simp only [List.map_cons, List.nodup_cons] at h
    obtain ⟨hp, hrest⟩ := h
    obtain ⟨a, ops⟩ := p
    have h1 : Bigdict.commitTxns (some m) ((a, ops) :: rest) =
        Bigdict.commitTxns
          (some (Bigdict.aset a (Bigdict.applyOps (Bigdict.diskShard (some m) a) ops) m))
          rest := rfl
    by_cases hsh : sh = a
    · subst hsh
      rw [h1, Bigdict.diskShard_commitTxns_not_mem rest _ _ hp]
      rw [show Bigdict.diskShard
          (some (Bigdict.aset sh (Bigdict.applyOps (Bigdict.diskShard (some m) sh) ops) m))
          sh = Bigdict.applyOps (Bigdict.diskShard (some m) sh) ops from by
        simp [Bigdict.diskShard, Bigdict.alookup_aset_self]]
      rw [show Bigdict.txnOps ((sh, ops) :: rest) sh = ops from by
        simp [Bigdict.txnOps, Bigdict.alookup]]
    · rw [h1, ih _ _ hrest]
      rw [show Bigdict.diskShard
          (some (Bigdict.aset a (Bigdict.applyOps (Bigdict.diskShard (some m) a) ops) m))
          sh = Bigdict.diskShard (some m) sh from
        Bigdict.diskShard_diskSetShard_ne m a sh _ hsh]
      rw [show Bigdict.txnOps ((a, ops) :: rest) sh = Bigdict.txnOps rest sh from by
        simp [Bigdict.txnOps, Bigdict.alookup, Ne.symm hsh]]

/-- Registering a shard's transaction keeps the registrations
duplicate-free. -/
theorem Bigdict.getTxn_nodup (db : Bigdict.DB) (sh : String)
    (h : (db.txns.map Prod.fst).Nodup) :
    (((Bigdict.getTxn db sh).txns).map Prod.fst).Nodup := by
  unfold Bigdict.getTxn
  by_cases hp : (Bigdict.alookup sh db.txns).isSome
  · simpa [hp] using h
  · have hnone : Bigdict.alookup sh db.txns = Option.none := by
      cases hl : Bigdict.alookup sh db.txns with
      | some x => rw [hl] at hp; simp at hp
      | none => rfl
    have hnm : sh ∉ db.txns.map Prod.fst := Bigdict.alookup_none_not_mem hnone
    simp [hp, List.nodup_append, h, hnm]

/-- On a supported configuration the router never raises. -/
theorem Bigdict.shard_ok (sl : Nat) (kk : List Nat) (h : Bigdict.SupportedSl sl) :
    ∃ s, Bigdict.shard 2 sl kk = .ok s := by
  rcases h with h | h | h | h | h | h | h | h <;> subst h
  · exact ⟨"0", rfl⟩
  · exact ⟨"0", rfl⟩
  · by_cases hk : kk.length = 0
    · exact ⟨"0", by simp [Bigdict.shard, hk]⟩
    · exact ⟨toString (Bigdict.blake2b1 kk &&& 7), by simp [Bigdict.shard, hk]⟩
  · by_cases hk : kk.length = 0
    · exact ⟨"0", by simp [Bigdict.shard, hk]⟩
    · exact ⟨toString (Bigdict.blake2b1 kk &&& 15), by simp [Bigdict.shard, hk]⟩
  · by_cases hk : kk.length = 0
    · exact ⟨"0", by simp [Bigdict.shard, hk]⟩
    · exact ⟨toString (Bigdict.blake2b1 kk &&& 31), by simp [Bigdict.shard, hk]⟩
  · by_cases hk : kk.length = 0
    · exact ⟨"0", by simp [Bigdict.shard, hk]⟩
    · exact ⟨toString (Bigdict.blake2b1 kk &&& 63), by simp [Bigdict.shard, hk]⟩
  · by_cases hk : kk.length = 0
    · exact ⟨"0", by simp [Bigdict.shard, hk]⟩
    · exact ⟨toString (Bigdict.blake2b1 kk &&& 127), by simp [Bigdict.shard, hk]⟩
  · by_cases hk : kk.length = 0
    · exact ⟨"0", by simp [Bigdict.shard, hk]⟩
    · exact ⟨toString (Bigdict.blake2b1 kk), by simp [Bigdict.shard, hk]⟩

/-- On a supported read-write handle the router resolves every key to
its route. -/
theorem Bigdict.shard_route (db : Bigdict.DB) (k : List Nat)
    (h2 : db.storage_version = 2) (hsl : Bigdict.SupportedSl db.shard_level) :
    Bigdict.shard db.storage_version db.shard_level (Bigdict.encode_key k) =
      .ok (Bigdict.routeOf db k) := by
  obtain ⟨s, hs⟩ := Bigdict.shard_ok db.shard_level (Bigdict.encode_key k) hsl
  rw [h2, hs]
  unfold Bigdict.routeOf
  rw [h2, hs]
  rfl

/-- Keys with the same encoding route to the same shard. -/
theorem Bigdict.routeOf_congr (db : Bigdict.DB) (k k2 : List Nat)
    (h : Bigdict.encode_key k = Bigdict.encode_key k2) :
    Bigdict.routeOf db k = Bigdict.routeOf db k2 := by
  unfold Bigdict.routeOf
  rw [h]

/-- Opening a shard environment keeps the directory listing present. -/
theorem Bigdict.envEnsure_ne_none (d : Option (List (String × Bigdict.ShardData)))
    (sh : String) : Bigdict.envEnsure d sh ≠ Option.none := by
  cases d <;> simp [Bigdict.envEnsure]

/-- `commit` on an invariant read-write state: it succeeds, produces the
committed state, stays invariant and preserves every key's visible
value. -/
theorem Bigdict.commit_liveGet (db : Bigdict.DB) (h : Bigdict.Inv2 db) :
    Bigdict.commit db = ({ db with disk := Bigdict.commitTxns db.disk db.txns, pending := 0, txns := [] }, .ok ()) ∧
    Bigdict.Inv2 { db with disk := Bigdict.commitTxns db.disk db.txns, pending := 0, txns := [] } ∧
    ∀ k, Bigdict.liveGet { db with disk := Bigdict.commitTxns db.disk db.txns, pending := 0, txns := [] } k = Bigdict.liveGet db k := by
  obtain ⟨hro, hsv, hsl, hdisk, hnd⟩ := h
  obtain ⟨m, hm⟩ : ∃ m, db.disk = some m := by
    cases hd : db.disk with
    | none => exact absurd hd hdisk
    | some m => exact ⟨m, rfl⟩
  refine ⟨by simp [Bigdict.commit, hro], ⟨hro, hsv, hsl, ?_, by simp⟩, ?_⟩
  · show Bigdict.commitTxns db.disk db.txns ≠ Option.none
    rw [hm]
    obtain ⟨m2, hm2⟩ := Bigdict.commitTxns_isSome db.txns m
    rw [hm2]
    simp
  · intro k
    unfold Bigdict.liveGet
    show Bigdict.alookup (Bigdict.encode_key k)
        (Bigdict.applyOps
          (Bigdict.diskShard (Bigdict.commitTxns db.disk db.txns) (Bigdict.routeOf db k))
          (Bigdict.txnOps [] (Bigdict.routeOf db k))) =
      Bigdict.alookup (Bigdict.encode_key k)
        (Bigdict.applyOps (Bigdict.diskShard db.disk (Bigdict.routeOf db k))
          (Bigdict.txnOps db.txns (Bigdict.routeOf db k)))
    rw [hm, Bigdict.diskShard_commitTxns db.txns m _ hnd]
    rfl

/-- `__setitem__` factored through the staged state. -/
theorem Bigdict.setitem_step (k : List Nat) (v : Bigdict.PyVal) (db : Bigdict.DB)
    (hro : db.readonly = false) (hsv : db.storage_version = 2)
    (hsl : Bigdict.SupportedSl db.shard_level) :
    Bigdict.setitem k v db = Bigdict.track_write 1 (Bigdict.setitemMid k v db) := by
  have hsh := Bigdict.shard_route db k hsv hsl
  simp only [Bigdict.setitem, hsh]
  rw [if_neg (by simp [Bigdict.getTxn, hro])]
  rfl

/-- The staged state of `__setitem__` keeps the invariant. -/
theorem Bigdict.setitemMid_inv (k : List Nat) (v : Bigdict.PyVal) (db : Bigdict.DB)
    (h : Bigdict.Inv2 db) : Bigdict.Inv2 (Bigdict.setitemMid k v db) := by
  obtain ⟨hro, hsv, hsl, hdisk, hnd⟩ := h
  refine ⟨hro, hsv, hsl, ?_, ?_⟩
  · exact Bigdict.envEnsure_ne_none db.disk _
  · show ((Bigdict.aset (Bigdict.routeOf db k) _ ((Bigdict.getTxn db (Bigdict.routeOf db k)).txns)).map Prod.fst).Nodup
    exact Bigdict.nodup_map_fst_aset _ _ _ (Bigdict.getTxn_nodup db _ hnd)

/-- The staged state of `__setitem__` updates exactly the written key's
visible value. -/
theorem Bigdict.setitemMid_liveGet (k : List Nat) (v : Bigdict.PyVal) (db : Bigdict.DB) :
    ∀ key, Bigdict.liveGet (Bigdict.setitemMid k v db) key =
      if Bigdict.encode_key key = Bigdict.encode_key k
      then some (Bigdict.encode_value v) else Bigdict.liveGet db key := by
  intro key
  have hroute : Bigdict.routeOf (Bigdict.setitemMid k v db) key = Bigdict.routeOf db key := rfl
  have htxns : (Bigdict.setitemMid k v db).txns =
      Bigdict.txnAppend (Bigdict.getTxn db (Bigdict.routeOf db k)).txns (Bigdict.routeOf db k)
        (Bigdict.TxnOp.put (Bigdict.encode_key k) (Bigdict.encode_value v)) := rfl
  have hdm : (Bigdict.setitemMid k v db).disk =
      Bigdict.envEnsure db.disk (Bigdict.routeOf db k) := rfl
  unfold Bigdict.liveGet
  rw [hroute, hdm, htxns, Bigdict.diskShard_envEnsure]
  by_cases hkk : Bigdict.encode_key key = Bigdict.encode_key k
  · rw [if_pos hkk]
    have hr2 : Bigdict.routeOf db key = Bigdict.routeOf db k :=
      Bigdict.routeOf_congr db key k hkk
    rw [hr2, Bigdict.txnOps_txnAppend_self, Bigdict.txnOps_getTxn, Bigdict.applyOps_append]
    rw [show Bigdict.applyTxnOp
        (Bigdict.applyOps (Bigdict.diskShard db.disk (Bigdict.routeOf db k))
          (Bigdict.txnOps db.txns (Bigdict.routeOf db k)))
        (Bigdict.TxnOp.put (Bigdict.encode_key k) (Bigdict.encode_value v)) =
      Bigdict.aset (Bigdict.encode_key k) (Bigdict.encode_value v)
        (Bigdict.applyOps (Bigdict.diskShard db.disk (Bigdict.routeOf db k))
          (Bigdict.txnOps db.txns (Bigdict.routeOf db k))) from rfl]
    rw [hkk]
    exact Bigdict.alookup_aset_self _ _ _
  · rw [if_neg hkk]
    by_cases hr : Bigdict.routeOf db key = Bigdict.routeOf db k
    · rw [hr, Bigdict.txnOps_txnAppend_self, Bigdict.txnOps_getTxn, Bigdict.applyOps_append]
      rw [show Bigdict.applyTxnOp
          (Bigdict.applyOps (Bigdict.diskShard db.disk (Bigdict.routeOf db k))
            (Bigdict.txnOps db.txns (Bigdict.routeOf db k)))
          (Bigdict.TxnOp.put (Bigdict.encode_key k) (Bigdict.encode_value v)) =
        Bigdict.aset (Bigdict.encode_key k) (Bigdict.encode_value v)
          (Bigdict.applyOps (Bigdict.diskShard db.disk (Bigdict.routeOf db k))
            (Bigdict.txnOps db.txns (Bigdict.routeOf db k))) from rfl]
      rw [Bigdict.alookup_aset_ne _ _ hkk]
    · rw [Bigdict.txnOps_txnAppend_ne _ _ _ _ hr, Bigdict.txnOps_getTxn]

/-- `__setitem__` on an invariant state: it succeeds, stays invariant,
keeps the configuration and updates exactly the written key's visible
value. -/
theorem Bigdict.setitem_liveGet (k : List Nat) (v : Bigdict.PyVal) (db : Bigdict.DB)
    (h : Bigdict.Inv2 db) :
    ∃ db2, Bigdict.setitem k v db = (db2, .ok ()) ∧ Bigdict.Inv2 db2 ∧
      db2.storage_version = db.storage_version ∧ db2.shard_level = db.shard_level ∧
      ∀ key, Bigdict.liveGet db2 key =
        if Bigdict.encode_key key = Bigdict.encode_key k
        then some (Bigdict.encode_value v) else Bigdict.liveGet db key := by
  have hstep := Bigdict.setitem_step k v db h.1 h.2.1 h.2.2.1
  have hmid_inv := Bigdict.setitemMid_inv k v db h
  have hmid_lg := Bigdict.setitemMid_liveGet k v db
  rw [Bigdict.track_write_spec 1 _ (show (Bigdict.setitemMid k v db).readonly = false from h.1)] at hstep
  rw [if_neg (by norm_num)] at hstep
  by_cases hcommit : (Bigdict.setitemMid k v db).interval ≤ (Bigdict.setitemMid k v db).pending + 1
  · rw [if_pos hcommit] at hstep
    obtain ⟨hc1, hc2, hc3⟩ := Bigdict.commit_liveGet (Bigdict.setitemMid k v db) hmid_inv
    refine ⟨_, hstep, hc2, rfl, rfl, ?_⟩
    intro key
    rw [hc3 key, hmid_lg key]
  · rw [if_neg hcommit] at hstep
    refine ⟨_, hstep, ?_, rfl, rfl, ?_⟩
    · exact ⟨hmid_inv.1, hmid_inv.2.1, hmid_inv.2.2.1, hmid_inv.2.2.2.1, hmid_inv.2.2.2.2⟩
    · intro key
      exact hmid_lg key

/-- A successful leading write factors out of a write sequence. -/
theorem Bigdict.applyWrites_cons_ok (db dbA : Bigdict.DB) (w : List Nat × Bigdict.PyVal)
    (ws : List (List Nat × Bigdict.PyVal))
    (hA : Bigdict.setitem w.1 w.2 db = (dbA, .ok ())) :
    Bigdict.applyWrites db (w :: ws) = Bigdict.applyWrites dbA ws := by
  unfold Bigdict.applyWrites
  rw [List.foldl_cons]
  congr 1

/-- The last-write fold from an arbitrary accumulator. -/
theorem Bigdict.lastWrite_foldl (k : List Nat) (ws : List (List Nat × Bigdict.PyVal)) :
    ∀ init, ws.foldl
      (fun acc p => if Bigdict.encode_key p.1 = Bigdict.encode_key k then some p.2 else acc)
      init = (Bigdict.lastWrite ws k).or init := by
  induction ws with
  | nil => intro init; rfl
  | cons p ws ih =>
    intro init
    rw [List.foldl_cons, ih]
    have h2 : Bigdict.lastWrite (p :: ws) k =
        (Bigdict.lastWrite ws k).or
          (if Bigdict.encode_key p.1 = Bigdict.encode_key k then some p.2 else Option.none) := by
      unfold Bigdict.lastWrite
      rw [List.foldl_cons]
      exact ih _
    rw [h2]
    cases hlw : Bigdict.lastWrite ws k with
    | some u => rfl
    | none =>
      by_cases hit : Bigdict.encode_key p.1 = Bigdict.encode_key k
      · rw [if_pos hit, if_pos hit]
        rfl
      · rw [if_neg hit, if_neg hit]
        rfl

/-- A successful write sequence on an invariant state: the final state
is invariant, keeps the configuration, and every key's visible value is
the last value written for it, falling back to the value visible
before. -/
theorem Bigdict.applyWrites_liveGet (writes : List (List Nat × Bigdict.PyVal)) :
    ∀ db db1, Bigdict.Inv2 db → Bigdict.applyWrites db writes = (db1, .ok ()) →
    Bigdict.Inv2 db1 ∧ db1.storage_version = db.storage_version ∧
      db1.shard_level = db.shard_level ∧
      ∀ key, Bigdict.liveGet db1 key =
        ((Bigdict.lastWrite writes key).map Bigdict.encode_value).or
          (Bigdict.liveGet db key) := by
  induction writes with
  | nil =>
    intro db db1 hinv happ
    have h2 : db = db1 := congrArg Prod.fst happ
    subst h2
    refine ⟨hinv, rfl, rfl, ?_⟩
    intro key
    rfl
  | cons w ws ih =>
    intro db db1 hinv happ
    obtain ⟨dbA, hA, hinvA, hsvA, hslA, hlgA⟩ := Bigdict.setitem_liveGet w.1 w.2 db hinv
    rw [Bigdict.applyWrites_cons_ok db dbA w ws hA] at happ
    obtain ⟨hinv1, hsv1, hsl1, hlg1⟩ := ih dbA db1 hinvA happ
    refine ⟨hinv1, hsv1.trans hsvA, hsl1.trans hslA, ?_⟩
    intro key
    rw [hlg1 key, hlgA key]
    have h2 : Bigdict.lastWrite (w :: ws) key =
        (Bigdict.lastWrite ws key).or
          (if Bigdict.encode_key w.1 = Bigdict.encode_key key then some w.2 else Option.none) := by
      unfold Bigdict.lastWrite
      rw [List.foldl_cons]
      exact Bigdict.lastWrite_foldl key ws _
    rw [h2]
    cases hlw : Bigdict.lastWrite ws key with
    | some u => rfl
    | none =>
      by_cases hit : Bigdict.encode_key key = Bigdict.encode_key w.1
      · rw [if_pos hit, if_pos hit.symm]
        rfl
      · rw [if_neg hit, if_neg (fun hh => hit hh.symm)]
        rfl

/-- C2 (amended): the class provides no rollback operation — the
counterexample theorem shows no public operation satisfies the rollback
contract; staged writes are only ever discarded by `destroy` (with the
whole dataset) or by closing a read-only handle.  The commit half of the
claimed duality does hold: for any successful sequence of `__setitem__`
calls on a read-write handle of the current format with no open
transactions, a final `commit` succeeds, leaves no open transaction, and
the persisted value of every key is the last value written for it
(last-write-wins at encoded-key granularity), with keys not written
keeping their prior persisted value — whether or not the interval-driven
auto-commit fired during the sequence. -/
theorem Bigdict.commit_duality (db db1 : Bigdict.DB)
    (writes : List (List Nat × Bigdict.PyVal))
    (hro : db.readonly = false) (hsv : db.storage_version = 2)
    (hsl : Bigdict.SupportedSl db.shard_level) (hdisk : db.disk ≠ Option.none)
    (htx : db.txns = [])
    (happ : Bigdict.applyWrites db writes = (db1, .ok ())) :
    ∃ db2, Bigdict.commit db1 = (db2, .ok ()) ∧ db2.txns = [] ∧
      ∀ key, Bigdict.dbGet db2 key =
        ((Bigdict.lastWrite writes key).map Bigdict.encode_value).or
          (Bigdict.dbGet db key) := by
  have hinv : Bigdict.Inv2 db := ⟨hro, hsv, hsl, hdisk, by rw [htx]; exact List.nodup_nil⟩
  obtain ⟨hinv1, hsv1, hsl1, hlg1⟩ := Bigdict.applyWrites_liveGet writes db db1 hinv happ
  obtain ⟨hc1, hc2, hc3⟩ := Bigdict.commit_liveGet db1 hinv1
  refine ⟨_, hc1, rfl, ?_⟩
  intro key
  have hdg2 : Bigdict.dbGet { db1 with disk := Bigdict.commitTxns db1.disk db1.txns, pending := 0, txns := [] } key = Bigdict.liveGet { db1 with disk := Bigdict.commitTxns db1.disk db1.txns, pending := 0, txns := [] } key := rfl
  rw [hdg2, hc3 key, hlg1 key]
  have hdg : Bigdict.liveGet db key = Bigdict.dbGet db key := by
    unfold Bigdict.liveGet Bigdict.dbGet
    rw [htx]
    rfl
  rw [hdg]

/-- Witness for C2's amended theorem: one write on a fresh read-write
handle with commit interval 1 (so the write auto-commits), followed by
`commit`. -/
theorem Bigdict.commit_duality_witness :
    (Bigdict.dbSeq0.readonly = false ∧ Bigdict.dbSeq0.storage_version = 2 ∧
      Bigdict.SupportedSl Bigdict.dbSeq0.shard_level ∧
      Bigdict.dbSeq0.disk ≠ Option.none ∧ Bigdict.dbSeq0.txns = [] ∧
      Bigdict.applyWrites Bigdict.dbSeq0 [([97], Bigdict.PyVal.none)] =
        (Bigdict.dbSeq1, .ok ())) ∧
    (∃ db2, Bigdict.commit Bigdict.dbSeq1 = (db2, .ok ()) ∧ db2.txns = [] ∧
      ∀ key, Bigdict.dbGet db2 key =
        ((Bigdict.lastWrite [([97], Bigdict.PyVal.none)] key).map Bigdict.encode_value).or
          (Bigdict.dbGet Bigdict.dbSeq0 key)) := by
  refine ⟨⟨rfl, rfl, Or.inl rfl, by simp [Bigdict.dbSeq0], rfl, rfl⟩, ?_⟩
  exact Bigdict.commit_duality Bigdict.dbSeq0 Bigdict.dbSeq1 [([97], Bigdict.PyVal.none)]
    rfl rfl (Or.inl rfl) (by simp [Bigdict.dbSeq0]) rfl rfl

/-- The one-byte BLAKE2b digest value is a byte. -/
theorem Bigdict.blake2b1_lt (data : List Nat) : Bigdict.blake2b1 data < 256 := by
  have key : ∀ l : List Nat, ((l.flatMap Bigdict.le8).take 1).getD 0 0 < 256 := by
    intro l
    cases l with
    | nil => simp
    | cons w t => simp [Bigdict.le8]; omega
  exact key _

/-- C1: for every encoded key and every supported shard count, the shard
router of the current storage version (2) returns `"0"` when the shard
count is at most 1 or the key is empty, and otherwise the decimal
rendering of the first byte of the one-byte BLAKE2b digest of the key,
masked with `shard_count - 1`; the result is a pure function of the key
bytes and the shard count alone (storage version 1 — admitted at open
only with shard level ≤ 1 — agrees). -/
theorem Bigdict.shard_matches_spec (sl : Nat) (key : List Nat)
    (hsl : sl = 0 ∨ sl = 1 ∨ sl = 8 ∨ sl = 16 ∨ sl = 32 ∨ sl = 64 ∨
      sl = 128 ∨ sl = 256) :
    Bigdict.shard 2 sl key = .ok (Bigdict.shardSpec key sl) ∧
      (sl ≤ 1 → Bigdict.shard 1 sl key = .ok (Bigdict.shardSpec key sl)) := by
  constructor
  · have h255 : Bigdict.blake2b1 key &&& 255 = Bigdict.blake2b1 key :=
      @Nat.and_pow_two_sub_one_of_lt_two_pow 8 _ (Bigdict.blake2b1_lt key)
    rcases hsl with rfl | rfl | rfl | rfl | rfl | rfl | rfl | rfl <;>
      rcases eq_or_ne key [] with rfl | hk <;>
      simp_all [Bigdict.shard, Bigdict.shardSpec, List.length_eq_zero]
  · intro h1
    interval_cases sl <;> simp [Bigdict.shard, Bigdict.shardSpec]

set_option maxRecDepth 100000 in
/-- Witness for C1 at shard count 8 and key `b"a"` (also evaluating the
router concretely: BLAKE2b-1 of `b"a"` is 222, and `222 &&& 7 = 6`). -/
theorem Bigdict.shard_matches_spec_witness :
    ((8 : Nat) = 0 ∨ (8 : Nat) = 1 ∨ (8 : Nat) = 8 ∨ (8 : Nat) = 16 ∨
      (8 : Nat) = 32 ∨ (8 : Nat) = 64 ∨ (8 : Nat) = 128 ∨ (8 : Nat) = 256) ∧
    (Bigdict.shard 2 8 [97] = .ok (Bigdict.shardSpec [97] 8) ∧
      ((8 : Nat) ≤ 1 → Bigdict.shard 1 8 [97] = .ok (Bigdict.shardSpec [97] 8))) ∧
    Bigdict.shard 2 8 [97] = .ok "6" := by
  refine ⟨by decide, Bigdict.shard_matches_spec 8 [97] (by decide), by rfl⟩
